import Mathlib

/-!
Verification of the Slamrock item-empowerment engine
(src/game/AI/ScriptDevAI/scripts/world/slamrock_items.cpp).

The C++ source is shallowly embedded below.  Randomness (`urand(a, b)`) is
externalized: every function that draws a random number takes the draw as an
explicit argument, and theorems quantify over draws in the range the source
requests.  The host server's inventory primitives (`CanEquipNewItem`,
`CanStoreNewItem`, `DestroyItem`, `EquipNewItem`, `StoreNewItem`) are not part
of the repository sources; they are modelled from the spec as an abstract
service (see `InventoryService`).
-/

namespace Slamrock

/-- Constants from the source file. -/
def SLAMROCK_MARKER_ENCHANT_ID : Nat := 900000

def SLAMROCK_MAX_MODIFIERS : Nat := 3

def SLAMROCK_UPGRADE_CHANCE_PCT : Nat := 2

def SLAMROCK_UPGRADE_MAX_ILVL_DELTA : Nat := 5

def SLAMROCK_DOWNGRADE_CHANCE_PCT : Nat := 25

def INVTYPE_NON_EQUIP : Nat := 0

def INVTYPE_BAG : Nat := 18

def ITEM_CLASS_WEAPON : Nat := 2

/-- One row of the `slamrock_enchant_whitelist` table (struct SlamrockWhitelistRow). -/
structure SlamrockWhitelistRow where
  enchantId : Nat
  groupKey : String
  rank : Nat
  minIlvl : Nat
  weight : Nat
deriving DecidableEq

/-- Source: GetEffectiveGroupKey — a blank group key makes the enchant its own group. -/
def GetEffectiveGroupKey (row : SlamrockWhitelistRow) : String :=
  if row.groupKey = "" then toString row.enchantId else row.groupKey

/-- A row is skipped by the samplers when `weight == 0 || minIlvl > itemLevel`
(the shared filter at the top of both sampling loops in the source). -/
def rowEligible (row : SlamrockWhitelistRow) (itemLevel : Nat) : Bool :=
  !(row.weight == 0 || decide (row.minIlvl > itemLevel))

theorem rowEligible_iff (row : SlamrockWhitelistRow) (itemLevel : Nat) :
    rowEligible row itemLevel = true ↔ row.weight ≠ 0 ∧ row.minIlvl ≤ itemLevel := by
  simp [rowEligible, Nat.not_lt]

/-- The `std::map<std::string, uint32> groupWeights` of
`PickWeightedGroupFromWhitelist`, modelled as an association list with unique
keys.  Inserting an existing key keeps the maximum of the old and new weight,
exactly as the source's `if (row.weight > itr->second) itr->second = row.weight;`.
The list keeps keys in insertion order while the std::map iterates in key
order; every property proved below is independent of the iteration order, and
each concrete pool used below lists its group keys in ascending order, making
the modelled walk coincide with the source's walk on those inputs. -/
def insertGroupWeight : List (String × Nat) → String → Nat → List (String × Nat)
  | [], key, w => [(key, w)]
  | (k, v) :: rest, key, w =>
    if key = k then (k, Nat.max v w) :: rest
    else (k, v) :: insertGroupWeight rest key w

/-- Lookup in the group-weight table. -/
def lookupGW : List (String × Nat) → String → Option Nat
  | [], _ => none
  | (k, v) :: rest, key => if key = k then some v else lookupGW rest key

/-- One iteration of the row loop of `PickWeightedGroupFromWhitelist`:
skip ineligible rows, skip excluded groups, otherwise record the max weight. -/
def groupStep (itemLevel : Nat) (excludeGroups : List String)
    (m : List (String × Nat)) (row : SlamrockWhitelistRow) : List (String × Nat) :=
  if rowEligible row itemLevel then
    if GetEffectiveGroupKey row ∈ excludeGroups then m
    else insertGroupWeight m (GetEffectiveGroupKey row) row.weight
  else m

/-- The group-weight table built by the first loop of
`PickWeightedGroupFromWhitelist`. -/
def buildGroupWeights (pool : List SlamrockWhitelistRow) (itemLevel : Nat)
    (excludeGroups : List String) : List (String × Nat) :=
  pool.foldl (groupStep itemLevel excludeGroups) []

/-- `uint32 totalWeight = 0; for (kv : groupWeights) totalWeight += kv.second;`
— the accumulator is a uint32, so each addition wraps modulo `2 ^ 32`. -/
def totalGroupWeight (m : List (String × Nat)) : Nat :=
  m.foldl (fun acc p => (acc + p.2) % 2 ^ 32) 0

/-- The cumulative walk of `PickWeightedGroupFromWhitelist`:
`running += kv.second; if (roll <= running) return kv.first;` — `running` is
a uint32 as well, wrapping modulo `2 ^ 32` exactly like `totalWeight`. -/
def walkGroups : List (String × Nat) → Nat → Nat → Option String
  | [], _, _ => none
  | p :: rest, roll, running =>
    if roll ≤ (running + p.2) % 2 ^ 32 then some p.1
    else walkGroups rest roll ((running + p.2) % 2 ^ 32)

/-- Source: PickWeightedGroupFromWhitelist.  The draw `urand(1, totalWeight)`
is passed in as `roll`. -/
def PickWeightedGroupFromWhitelist (pool : List SlamrockWhitelistRow) (itemLevel : Nat)
    (excludeGroups : List String) (roll : Nat) : Option String :=
  if totalGroupWeight (buildGroupWeights pool itemLevel excludeGroups) = 0 ∨
      buildGroupWeights pool itemLevel excludeGroups = [] then none
  else walkGroups (buildGroupWeights pool itemLevel excludeGroups) roll 0

/-- Row filter of `PickRandomEligibleRankEnchantForGroup`: eligible and in the
requested group. -/
def rowMatchesGroup (row : SlamrockWhitelistRow) (itemLevel : Nat) (groupKey : String) : Bool :=
  rowEligible row itemLevel && (GetEffectiveGroupKey row == groupKey)

/-- The matching rows of the group, in pool order (used to count
`eligibleCount` and to resolve the ordinal draw). -/
def eligibleRanks (pool : List SlamrockWhitelistRow) (itemLevel : Nat)
    (groupKey : String) : List SlamrockWhitelistRow :=
  pool.filter (fun row => rowMatchesGroup row itemLevel groupKey)

/-- The second loop of `PickRandomEligibleRankEnchantForGroup`:
`++seen; if (seen >= roll) return row.enchantId;` over matching rows. -/
def walkRanks (itemLevel : Nat) (groupKey : String) :
    List SlamrockWhitelistRow → Nat → Nat → Option Nat
  | [], _, _ => none
  | row :: rest, roll, seen =>
    if rowMatchesGroup row itemLevel groupKey then
      if roll ≤ seen + 1 then some row.enchantId
      else walkRanks itemLevel groupKey rest roll (seen + 1)
    else walkRanks itemLevel groupKey rest roll seen

/-- Source: PickRandomEligibleRankEnchantForGroup.  The draw
`urand(1, eligibleCount)` is passed in as `roll`. -/
def PickRandomEligibleRankEnchantForGroup (pool : List SlamrockWhitelistRow)
    (itemLevel : Nat) (groupKey : String) (roll : Nat) : Option Nat :=
  if (eligibleRanks pool itemLevel groupKey).length = 0 then none
  else walkRanks itemLevel groupKey pool roll 0

/-- The modifier-roll loop of `ItemUse_item_slamrock` (lines 851-861):
`while (rolled.size() < modifierCount)` pick a group — passing the
never-updated static `noExclusions` list, i.e. always `[]` — then pick a
rank, appending until a pick fails.  `draws i` supplies the pair of random
draws (group roll, rank roll) of iteration `i`. -/
def rollModifiersGo (pool : List SlamrockWhitelistRow) (itemLevel : Nat)
    (draws : Nat → Nat × Nat) : Nat → Nat → List Nat → List Nat
  | 0, _, acc => acc.reverse
  | n + 1, i, acc =>
    match PickWeightedGroupFromWhitelist pool itemLevel [] (draws i).1 with
    | none => acc.reverse
    | some groupKey =>
      match PickRandomEligibleRankEnchantForGroup pool itemLevel groupKey (draws i).2 with
      | none => acc.reverse
      | some picked => rollModifiersGo pool itemLevel draws n (i + 1) (picked :: acc)

/-- The rolled enchant list for a requested `modifierCount`. -/
def rollModifiers (pool : List SlamrockWhitelistRow) (itemLevel : Nat)
    (modifierCount : Nat) (draws : Nat → Nat × Nat) : List Nat :=
  rollModifiersGo pool itemLevel draws modifierCount 0 []

/-- The eligible-groups precheck of `ItemUse_item_slamrock` (lines 827-838):
the `groups` map is nonempty iff some row passes the eligibility filter. -/
def eligibleGroupsExist (pool : List SlamrockWhitelistRow) (itemLevel : Nat) : Bool :=
  pool.any (fun row => rowEligible row itemLevel)

/-! ### Lemmas about the group-weight table -/

theorem insertGroupWeight_cons_self (k : String) (v w : Nat) (rest : List (String × Nat)) :
    insertGroupWeight ((k, v) :: rest) k w = (k, Nat.max v w) :: rest := by
  simp [insertGroupWeight]

theorem insertGroupWeight_cons_ne {key k : String} (hk : key ≠ k) (v w : Nat)
    (rest : List (String × Nat)) :
    insertGroupWeight ((k, v) :: rest) key w = (k, v) :: insertGroupWeight rest key w := by
  simp [insertGroupWeight, hk]

theorem lookupGW_insert_self_none {m : List (String × Nat)} {k : String} {w : Nat}
    (h : lookupGW m k = none) :
    lookupGW (insertGroupWeight m k w) k = some w := by
  induction m with
  | nil => simp [insertGroupWeight, lookupGW]
  | cons p rest ih =>
    obtain ⟨k', v⟩ := p
    by_cases hk : k = k'
    · subst hk; simp [lookupGW] at h
    · simp only [lookupGW, if_neg hk] at h
      simp [insertGroupWeight, lookupGW, hk, ih h]

theorem lookupGW_insert_self_some {m : List (String × Nat)} {k : String} {v w : Nat}
    (h : lookupGW m k = some v) :
    lookupGW (insertGroupWeight m k w) k = some (Nat.max v w) := by
  induction m with
  | nil => simp [lookupGW] at h
  | cons p rest ih =>
    obtain ⟨k', v'⟩ := p
    by_cases hk : k = k'
    · subst hk
      simp only [lookupGW, if_pos rfl] at h
      cases h
      simp [insertGroupWeight, lookupGW]
    · simp only [lookupGW, if_neg hk] at h
      simp [insertGroupWeight, lookupGW, hk, ih h]

theorem lookupGW_insert_other {m : List (String × Nat)} {k k' : String} {w : Nat}
    (h : k' ≠ k) :
    lookupGW (insertGroupWeight m k w) k' = lookupGW m k' := by
  induction m with
  | nil => simp [insertGroupWeight, lookupGW, h]
  | cons p rest ih =>
    obtain ⟨k0, v⟩ := p
    by_cases hk : k = k0
    · subst hk; simp [insertGroupWeight, lookupGW, h]
    · by_cases hk' : k' = k0
      · simp [insertGroupWeight, lookupGW, hk, hk']
      · simp [insertGroupWeight, lookupGW, hk, hk', ih]

theorem insertGroupWeight_of_le {m : List (String × Nat)} {k : String} {v w : Nat}
    (h : lookupGW m k = some v) (hw : w ≤ v) :
    insertGroupWeight m k w = m := by
  induction m with
  | nil => simp [lookupGW] at h
  | cons p rest ih =>
    obtain ⟨k0, v0⟩ := p
    by_cases hk : k = k0
    · subst hk
      simp only [lookupGW, if_pos rfl] at h
      cases h
      simp [insertGroupWeight, Nat.max_eq_left hw]
    · simp only [lookupGW, if_neg hk] at h
      simp [insertGroupWeight, hk, ih h]

theorem mem_insertGroupWeight {m : List (String × Nat)} {k : String} {w : Nat}
    {q : String × Nat} (h : q ∈ insertGroupWeight m k w) :
    q ∈ m ∨ q.1 = k := by
  induction m with
  | nil =>
    simp [insertGroupWeight] at h
    simp [h]
  | cons p rest ih =>
    obtain ⟨k0, v0⟩ := p
    by_cases hk : k = k0
    · subst hk
      rw [insertGroupWeight_cons_self] at h
      rcases List.mem_cons.mp h with rfl | h
      · right; rfl
      · left; exact List.mem_cons_of_mem _ h
    · rw [insertGroupWeight_cons_ne hk] at h
      rcases List.mem_cons.mp h with rfl | h
      · left; exact List.mem_cons_self _ _
      · rcases ih h with h' | h'
        · left; exact List.mem_cons_of_mem _ h'
        · right; exact h'

theorem pos_insertGroupWeight {m : List (String × Nat)} {k : String} {w : Nat}
    (hm : ∀ q ∈ m, 0 < q.2) (hw : 0 < w) :
    ∀ q ∈ insertGroupWeight m k w, 0 < q.2 := by
  induction m with
  | nil =>
    intro q hq
    simp [insertGroupWeight] at hq
    simpa [hq] using hw
  | cons p rest ih =>
    obtain ⟨k0, v0⟩ := p
    intro q hq
    by_cases hk : k = k0
    · subst hk
      rw [insertGroupWeight_cons_self] at hq
      rcases List.mem_cons.mp hq with rfl | hq
      · exact Nat.lt_of_lt_of_le hw (Nat.le_max_right v0 w)
      · exact hm q (List.mem_cons_of_mem _ hq)
    · rw [insertGroupWeight_cons_ne hk] at hq
      rcases List.mem_cons.mp hq with rfl | hq
      · exact hm (k0, v0) (List.mem_cons_self _ _)
      · exact ih (fun r hr => hm r (List.mem_cons_of_mem _ hr)) q hq

theorem lookupGW_mem {m : List (String × Nat)} {k : String} {v : Nat}
    (h : lookupGW m k = some v) : (k, v) ∈ m := by
  induction m with
  | nil => simp [lookupGW] at h
  | cons p rest ih =>
    obtain ⟨k0, v0⟩ := p
    by_cases hk : k = k0
    · subst hk
      simp only [lookupGW, if_pos rfl] at h
      cases h; simp
    · simp only [lookupGW, if_neg hk] at h
      simp [ih h]

/-! ### Lemmas about `buildGroupWeights` (proved for a general accumulator) -/

theorem pos_foldl_groupStep (itemLevel : Nat) (excl : List String) :
    ∀ (pool : List SlamrockWhitelistRow) (m : List (String × Nat)),
      (∀ q ∈ m, 0 < q.2) →
      ∀ q ∈ List.foldl (groupStep itemLevel excl) m pool, 0 < q.2 := by
  intro pool
  induction pool with
  | nil => intro m hm; simpa using hm
  | cons row rest ih =>
    intro m hm
    rw [List.foldl_cons]
    apply ih
    by_cases he : rowEligible row itemLevel
    · by_cases hx : GetEffectiveGroupKey row ∈ excl
      · simpa [groupStep, he, hx] using hm
      · simp only [groupStep, if_pos he, if_neg hx]
        apply pos_insertGroupWeight hm
        have := (rowEligible_iff row itemLevel).mp he
        omega
    · simpa [groupStep, he] using hm

theorem mem_foldl_groupStep (itemLevel : Nat) (excl : List String) :
    ∀ (pool : List SlamrockWhitelistRow) (m : List (String × Nat)) (q : String × Nat),
      q ∈ List.foldl (groupStep itemLevel excl) m pool →
      q ∈ m ∨ ∃ row ∈ pool, rowEligible row itemLevel = true ∧
        GetEffectiveGroupKey row ∉ excl ∧ GetEffectiveGroupKey row = q.1 := by
  intro pool
  induction pool with
  | nil => intro m q h; simp at h; exact Or.inl h
  | cons row rest ih =>
    intro m q h
    rw [List.foldl_cons] at h
    rcases ih (groupStep itemLevel excl m row) q h with h' | h'
    · by_cases he : rowEligible row itemLevel
      · by_cases hx : GetEffectiveGroupKey row ∈ excl
        · simp only [groupStep, if_pos he, if_pos hx] at h'
          exact Or.inl h'
        · simp only [groupStep, if_pos he, if_neg hx] at h'
          rcases mem_insertGroupWeight h' with h'' | h''
          · exact Or.inl h''
          · exact Or.inr ⟨row, by simp, he, hx, h''.symm⟩
      · simp only [groupStep, if_neg he] at h'
        exact Or.inl h'
    · obtain ⟨r, hr, h1, h2, h3⟩ := h'
      exact Or.inr ⟨r, by simp [hr], h1, h2, h3⟩

theorem lookupGW_le_foldl_groupStep (itemLevel : Nat) (excl : List String) :
    ∀ (pool : List SlamrockWhitelistRow) (m : List (String × Nat)) (k : String) (v₀ : Nat),
      lookupGW m k = some v₀ →
      ∃ v, v₀ ≤ v ∧ lookupGW (List.foldl (groupStep itemLevel excl) m pool) k = some v := by
  intro pool
  induction pool with
  | nil => intro m k v₀ h; exact ⟨v₀, le_refl _, by simpa using h⟩
  | cons row rest ih =>
    intro m k v₀ h
    rw [List.foldl_cons]
    by_cases he : rowEligible row itemLevel
    · by_cases hx : GetEffectiveGroupKey row ∈ excl
      · exact ih _ k v₀ (by simpa [groupStep, he, hx] using h)
      · by_cases hk : k = GetEffectiveGroupKey row
        · subst hk
          have h' := lookupGW_insert_self_some (w := row.weight) h
          obtain ⟨v, hv, hl⟩ := ih _ _ _
            (show lookupGW (groupStep itemLevel excl m row) _ = _ by
              simpa [groupStep, he, hx] using h')
          exact ⟨v, le_trans (Nat.le_max_left _ _) hv, hl⟩
        · exact ih _ k v₀ (by simpa [groupStep, he, hx, lookupGW_insert_other hk] using h)
    · exact ih _ k v₀ (by simpa [groupStep, he] using h)

theorem lookupGW_foldl_of_eligible (itemLevel : Nat) (excl : List String) :
    ∀ (pool : List SlamrockWhitelistRow) (m : List (String × Nat))
      (row : SlamrockWhitelistRow), row ∈ pool →
      rowEligible row itemLevel = true → GetEffectiveGroupKey row ∉ excl →
      ∃ v, row.weight ≤ v ∧
        lookupGW (List.foldl (groupStep itemLevel excl) m pool) (GetEffectiveGroupKey row) = some v := by
  intro pool
  induction pool with
  | nil => intro m row h; simp at h
  | cons r rest ih =>
    intro m row hrow he hx
    rw [List.foldl_cons]
    rcases List.mem_cons.mp hrow with h' | h'
    · subst h'
      have hstep : groupStep itemLevel excl m row =
          insertGroupWeight m (GetEffectiveGroupKey row) row.weight := by
        simp [groupStep, he, hx]
      cases hlm : lookupGW m (GetEffectiveGroupKey row) with
      | none =>
        have h1 : lookupGW (groupStep itemLevel excl m row) (GetEffectiveGroupKey row) =
            some row.weight := by
          rw [hstep]; exact lookupGW_insert_self_none hlm
        obtain ⟨v, hv, hl⟩ := lookupGW_le_foldl_groupStep itemLevel excl rest
          (groupStep itemLevel excl m row) (GetEffectiveGroupKey row) row.weight h1
        exact ⟨v, hv, hl⟩
      | some u =>
        have h1 : lookupGW (groupStep itemLevel excl m row) (GetEffectiveGroupKey row) =
            some (Nat.max u row.weight) := by
          rw [hstep]; exact lookupGW_insert_self_some hlm
        obtain ⟨v, hv, hl⟩ := lookupGW_le_foldl_groupStep itemLevel excl rest
          (groupStep itemLevel excl m row) (GetEffectiveGroupKey row) (Nat.max u row.weight) h1
        exact ⟨v, le_trans (Nat.le_max_right _ _) hv, hl⟩
    · exact ih _ row h' he hx

/-- The walk never falls off the end when the draw is bounded by the wrapped
accumulation of the remaining weights on top of `running`: the walk's final
`running` value is exactly that accumulation, so the condition
`roll <= running` fires at the last group at the latest. -/
theorem walkGroups_isSome :
    ∀ (m : List (String × Nat)) (roll running : Nat), m ≠ [] →
      roll ≤ m.foldl (fun acc p => (acc + p.2) % 2 ^ 32) running →
      (walkGroups m roll running).isSome := by
  intro m
  induction m with
  | nil => intro roll running h _; exact absurd rfl h
  | cons p rest ih =>
    intro roll running _ h2
    by_cases h : roll ≤ (running + p.2) % 2 ^ 32
    · simp only [walkGroups]
      rw [if_pos h]
      rfl
    · simp only [walkGroups, if_neg h]
      rcases rest with _ | ⟨q, rest'⟩
      · exfalso
        rw [List.foldl_cons, List.foldl_nil] at h2
        exact h h2
      · exact ih roll ((running + p.2) % 2 ^ 32) (by simp)
          (by rw [List.foldl_cons] at h2; exact h2)

/-- A positive wrapped total forces a nonempty table, whose entries all stem
from eligible, non-excluded rows. -/
theorem exists_eligible_of_total_pos (pool : List SlamrockWhitelistRow) (itemLevel : Nat)
    (excl : List String)
    (h : 0 < totalGroupWeight (buildGroupWeights pool itemLevel excl)) :
    ∃ row ∈ pool, rowEligible row itemLevel = true ∧ GetEffectiveGroupKey row ∉ excl := by
  cases hm : buildGroupWeights pool itemLevel excl with
  | nil => rw [hm] at h; simp [totalGroupWeight] at h
  | cons q m' =>
    have hq : q ∈ buildGroupWeights pool itemLevel excl := by rw [hm]; simp
    rcases mem_foldl_groupStep itemLevel excl pool [] q hq with h' | h'
    · simp at h'
    · obtain ⟨row, hrow, h1, h2, _⟩ := h'
      exact ⟨row, hrow, h1, h2⟩

/-! ### Claim C10 -/

/-- Claim C10 (amended): whenever the wrapping uint32 total weight is
positive, the cumulative walk of `PickWeightedGroupFromWhitelist` selects a
group for every draw in `[1, totalWeight]` — the trailing `return false`
after the walk is unreachable, because the walk's wrapping `running`
accumulator ends at exactly `totalWeight` — so the sampler succeeds exactly
when the wrapped total is nonzero; a positive wrapped total implies some
non-excluded group has a row with `weight > 0` and `minIlvl <= itemLevel`,
but not conversely: group maxima summing to a multiple of `2 ^ 32` wrap the
uint32 total to zero and the sampler then fails despite eligible rows (see
the counterexample). -/
theorem c10_walk_total_coverage (pool : List SlamrockWhitelistRow) (itemLevel : Nat)
    (excl : List String) :
    (∀ roll, 1 ≤ roll →
        roll ≤ totalGroupWeight (buildGroupWeights pool itemLevel excl) →
        (PickWeightedGroupFromWhitelist pool itemLevel excl roll).isSome) ∧
    (totalGroupWeight (buildGroupWeights pool itemLevel excl) = 0 →
        ∀ roll, PickWeightedGroupFromWhitelist pool itemLevel excl roll = none) ∧
    (0 < totalGroupWeight (buildGroupWeights pool itemLevel excl) →
        ∃ row ∈ pool, rowEligible row itemLevel = true ∧
          GetEffectiveGroupKey row ∉ excl) := by
  refine ⟨?_, ?_, ?_⟩
  · intro roll h1 h2
    have htw : totalGroupWeight (buildGroupWeights pool itemLevel excl) ≠ 0 := by omega
    have hm : buildGroupWeights pool itemLevel excl ≠ [] := by
      intro hnil
      rw [hnil] at htw
      simp [totalGroupWeight] at htw
    rw [PickWeightedGroupFromWhitelist, if_neg (not_or.mpr ⟨htw, hm⟩)]
    exact walkGroups_isSome _ roll 0 hm (by rw [totalGroupWeight] at h2; exact h2)
  · intro h0 roll
    simp [PickWeightedGroupFromWhitelist, h0]
  · exact exists_eligible_of_total_pos pool itemLevel excl

def c10Pool : List SlamrockWhitelistRow := [⟨1, "A", 1, 0, 10⟩]

/-- Witness for C10 at a concrete one-group pool. -/
theorem c10_walk_total_coverage_witness :
    (PickWeightedGroupFromWhitelist c10Pool 0 [] 1).isSome :=
  (c10_walk_total_coverage c10Pool 0 []).1 1 (by decide) (by decide)

/-! #### C10 counterexample: a wrap-to-zero pool defeats the sampler

The claimed "succeeds iff an eligible row exists" fails because `totalWeight`
is a uint32: 65538 eligible single-row groups whose maxima sum to exactly
`65537 * 65535 + 1 = 2 ^ 32` wrap the total to zero, the `totalWeight == 0`
guard fires, and the sampler returns failure despite eligible rows.  The pool
is far too large to evaluate by kernel reduction (the table build is
quadratic), so the failure is derived symbolically. -/

/-- Group key of the `i`-th wrap-pool row: `i + 1` copies of `'a'`, so
distinct indexes give distinct nonempty keys without evaluating any string. -/
def c10WrapKey (i : Nat) : String := String.mk (List.replicate (i + 1) 'a')

/-- The `i`-th of 65537 rows, carrying the maximal uint16 weight 65535. -/
def c10WrapRow (i : Nat) : SlamrockWhitelistRow := ⟨i + 1, c10WrapKey i, 1, 0, 65535⟩

/-- One further eligible row of weight 1, bringing the sum of the group
maxima to `65537 * 65535 + 1 = 2 ^ 32`. -/
def c10WrapLastRow : SlamrockWhitelistRow := ⟨70000, c10WrapKey 65537, 1, 0, 1⟩

/-- 65538 eligible single-row groups whose weights sum to exactly `2 ^ 32`. -/
def c10WrapPool : List SlamrockWhitelistRow :=
  (List.range 65537).map c10WrapRow ++ [c10WrapLastRow]

theorem c10WrapKey_inj {i j : Nat} (h : c10WrapKey i = c10WrapKey j) : i = j := by
  rw [c10WrapKey, c10WrapKey] at h
  have h2 := congrArg List.length (congrArg String.data h)
  simp at h2
  exact h2

theorem c10WrapKey_ne_empty (i : Nat) : c10WrapKey i ≠ "" := by
  intro h
  rw [c10WrapKey] at h
  have h2 : List.replicate (i + 1) 'a' = [] := congrArg String.data h
  simp [List.replicate_succ] at h2

theorem c10WrapRow_key (i : Nat) :
    GetEffectiveGroupKey (c10WrapRow i) = c10WrapKey i := by
  simp only [GetEffectiveGroupKey, c10WrapRow]
  rw [if_neg (c10WrapKey_ne_empty i)]

theorem c10WrapLastRow_key :
    GetEffectiveGroupKey c10WrapLastRow = c10WrapKey 65537 := by
  simp only [GetEffectiveGroupKey, c10WrapLastRow]
  rw [if_neg (c10WrapKey_ne_empty 65537)]

theorem c10WrapRow_eligible (i : Nat) : rowEligible (c10WrapRow i) 0 = true := rfl

theorem c10WrapLastRow_eligible : rowEligible c10WrapLastRow 0 = true := rfl

/-- Inserting a key absent from the table appends it. -/
theorem insertGroupWeight_append {m : List (String × Nat)} {k : String} {w : Nat}
    (h : lookupGW m k = none) : insertGroupWeight m k w = m ++ [(k, w)] := by
  induction m with
  | nil => rfl
  | cons p rest ih =>
    obtain ⟨k0, v0⟩ := p
    by_cases hk : k = k0
    · subst hk
      simp [lookupGW] at h
    · simp only [lookupGW, if_neg hk] at h
      rw [insertGroupWeight_cons_ne hk, ih h, List.cons_append]

theorem lookupGW_append_single_none {m : List (String × Nat)} {k k' : String} {w : Nat}
    (h : lookupGW m k' = none) (hk : k' ≠ k) :
    lookupGW (m ++ [(k, w)]) k' = none := by
  induction m with
  | nil => simp [lookupGW, hk]
  | cons p rest ih =>
    obtain ⟨k0, v0⟩ := p
    by_cases h0 : k' = k0
    · subst h0
      simp [lookupGW] at h
    · simp only [lookupGW, if_neg h0] at h
      rw [List.cons_append]
      simp only [lookupGW, if_neg h0]
      exact ih h

/-- Folding the row loop over eligible, non-excluded rows whose keys are
pairwise distinct and absent from the accumulator appends one entry per row. -/
theorem foldl_groupStep_fresh (itemLevel : Nat) (excl : List String) :
    ∀ (pool : List SlamrockWhitelistRow) (m : List (String × Nat)),
      (∀ row ∈ pool, rowEligible row itemLevel = true) →
      (∀ row ∈ pool, GetEffectiveGroupKey row ∉ excl) →
      (∀ row ∈ pool, lookupGW m (GetEffectiveGroupKey row) = none) →
      pool.Pairwise (fun r s => GetEffectiveGroupKey r ≠ GetEffectiveGroupKey s) →
      List.foldl (groupStep itemLevel excl) m pool =
        m ++ pool.map (fun r => (GetEffectiveGroupKey r, r.weight)) := by
  intro pool
  induction pool with
  | nil => intro m _ _ _ _; simp
  | cons row rest ih =>
    intro m helig hexcl hfresh hpw
    have h1 := helig row (List.mem_cons_self row rest)
    have h2 := hexcl row (List.mem_cons_self row rest)
    have h3 := hfresh row (List.mem_cons_self row rest)
    have hpw' := List.pairwise_cons.mp hpw
    rw [List.foldl_cons]
    have hstep : groupStep itemLevel excl m row =
        m ++ [(GetEffectiveGroupKey row, row.weight)] := by
      simp [groupStep, h1, h2, insertGroupWeight_append h3]
    rw [hstep]
    rw [ih (m ++ [(GetEffectiveGroupKey row, row.weight)])
      (fun r hr => helig r (List.mem_cons_of_mem row hr))
      (fun r hr => hexcl r (List.mem_cons_of_mem row hr))
      (fun r hr => lookupGW_append_single_none (hfresh r (List.mem_cons_of_mem row hr))
        (Ne.symm (hpw'.1 r hr)))
      hpw'.2]
    simp

theorem c10WrapPool_pairwise :
    c10WrapPool.Pairwise (fun r s => GetEffectiveGroupKey r ≠ GetEffectiveGroupKey s) := by
  rw [c10WrapPool, List.pairwise_append]
  refine ⟨?_, ?_, ?_⟩
  · rw [List.pairwise_map]
    have hnd : (List.range 65537).Pairwise (fun a b => a ≠ b) := List.nodup_range 65537
    refine hnd.imp ?_
    intro i j hij h
    rw [c10WrapRow_key, c10WrapRow_key] at h
    exact hij (c10WrapKey_inj h)
  · simp
  · intro r hr s hs
    rw [List.mem_map] at hr
    obtain ⟨i, hi, rfl⟩ := hr
    rw [List.mem_singleton] at hs
    subst hs
    rw [c10WrapRow_key, c10WrapLastRow_key]
    intro h
    have := c10WrapKey_inj h
    rw [List.mem_range] at hi
    omega

/-- The wrap pool's table is one entry per row, in pool order. -/
theorem c10WrapPool_build :
    buildGroupWeights c10WrapPool 0 [] =
      (List.range 65537).map (fun i => (c10WrapKey i, 65535)) ++ [(c10WrapKey 65537, 1)] := by
  have helig : ∀ row ∈ c10WrapPool, rowEligible row 0 = true := by
    intro row hrow
    rw [c10WrapPool, List.mem_append] at hrow
    rcases hrow with h | h
    · obtain ⟨i, _, rfl⟩ := List.mem_map.mp h
      exact c10WrapRow_eligible i
    · rw [List.mem_singleton] at h
      subst h
      exact c10WrapLastRow_eligible
  have hexcl : ∀ row ∈ c10WrapPool, GetEffectiveGroupKey row ∉ ([] : List String) := by
    intro row _
    simp
  have hfresh : ∀ row ∈ c10WrapPool, lookupGW [] (GetEffectiveGroupKey row) = none := by
    intro row _
    rfl
  rw [buildGroupWeights,
    foldl_groupStep_fresh 0 [] c10WrapPool [] helig hexcl hfresh c10WrapPool_pairwise,
    List.nil_append, c10WrapPool, List.map_append, List.map_map]
  congr 1

/-- Wrapping accumulation of `n` constant weights 65535. -/
theorem foldl_wrap_const :
    ∀ (n a : Nat), a < 2 ^ 32 →
      List.foldl (fun acc p => (acc + p.2) % 2 ^ 32) a
          ((List.range n).map (fun i => (c10WrapKey i, 65535))) =
        (a + n * 65535) % 2 ^ 32 := by
  intro n
  induction n with
  | zero =>
    intro a ha
    simpa using (Nat.mod_eq_of_lt ha).symm
  | succ n ih =>
    intro a ha
    rw [List.range_succ, List.map_append, List.foldl_append, ih a ha,
      List.map_cons, List.map_nil, List.foldl_cons, List.foldl_nil,
      Nat.mod_add_mod]
    congr 1
    ring

/-- The wrap pool's uint32 total weight is zero: the 65538 maxima sum to
`65537 * 65535 + 1 = 2 ^ 32`. -/
theorem c10WrapPool_total : totalGroupWeight (buildGroupWeights c10WrapPool 0 []) = 0 := by
  rw [totalGroupWeight, c10WrapPool_build, List.foldl_append,
    foldl_wrap_const 65537 0 (by norm_num), List.foldl_cons, List.foldl_nil]
  decide

/-- Counterexample to C10 as claimed: the wrap pool holds an eligible,
non-excluded row, yet the wrapping uint32 total weight is zero, the
`totalWeight == 0` guard fires, and the sampler fails — so the sampler does
not succeed whenever an eligible row exists. -/
theorem c10_wrap_total_failure :
    c10WrapLastRow ∈ c10WrapPool ∧
    rowEligible c10WrapLastRow 0 = true ∧
    GetEffectiveGroupKey c10WrapLastRow ∉ ([] : List String) ∧
    totalGroupWeight (buildGroupWeights c10WrapPool 0 []) = 0 ∧
    PickWeightedGroupFromWhitelist c10WrapPool 0 [] 1 = none := by
  refine ⟨?_, c10WrapLastRow_eligible, ?_, c10WrapPool_total, ?_⟩
  · simp [c10WrapPool]
  · simp
  · rw [PickWeightedGroupFromWhitelist, if_pos (Or.inl c10WrapPool_total)]

/-! ### Claim C3 -/

theorem lookupGW_foldl_attained (itemLevel : Nat) (excl : List String) :
    ∀ (pool : List SlamrockWhitelistRow) (m : List (String × Nat)) (k : String) (v : Nat),
      lookupGW (List.foldl (groupStep itemLevel excl) m pool) k = some v →
      lookupGW m k = some v ∨ ∃ row ∈ pool, rowEligible row itemLevel = true ∧
        GetEffectiveGroupKey row ∉ excl ∧ GetEffectiveGroupKey row = k ∧ row.weight = v := by
  intro pool
  induction pool with
  | nil => intro m k v h; exact Or.inl (by simpa using h)
  | cons row rest ih =>
    intro m k v h
    rw [List.foldl_cons] at h
    rcases ih _ k v h with h' | h'
    · by_cases he : rowEligible row itemLevel
      · by_cases hx : GetEffectiveGroupKey row ∈ excl
        · exact Or.inl (by simpa [groupStep, he, hx] using h')
        · by_cases hk : k = GetEffectiveGroupKey row
          · subst hk
            have hstep : groupStep itemLevel excl m row =
                insertGroupWeight m (GetEffectiveGroupKey row) row.weight := by
              simp [groupStep, he, hx]
            rw [hstep] at h'
            cases hlm : lookupGW m (GetEffectiveGroupKey row) with
            | none =>
              rw [lookupGW_insert_self_none hlm] at h'
              cases h'
              exact Or.inr ⟨row, by simp, he, hx, rfl, rfl⟩
            | some u =>
              rw [lookupGW_insert_self_some hlm] at h'
              cases h'
              rcases le_total u row.weight with hle | hle
              · exact Or.inr ⟨row, by simp, he, hx, rfl, (max_eq_right hle).symm⟩
              · exact Or.inl (congrArg some (max_eq_left hle).symm)
          · rw [show groupStep itemLevel excl m row =
                insertGroupWeight m (GetEffectiveGroupKey row) row.weight by
                simp [groupStep, he, hx], lookupGW_insert_other hk] at h'
            exact Or.inl h'
      · exact Or.inl (by simpa [groupStep, he] using h')
    · obtain ⟨r, hr, h1, h2, h3, h4⟩ := h'
      exact Or.inr ⟨r, List.mem_cons_of_mem _ hr, h1, h2, h3, h4⟩

theorem lookupGW_foldl_bound (itemLevel : Nat) (excl : List String) :
    ∀ (pool : List SlamrockWhitelistRow) (m : List (String × Nat)) (k : String) (v : Nat),
      lookupGW (List.foldl (groupStep itemLevel excl) m pool) k = some v →
      ∀ row ∈ pool, rowEligible row itemLevel = true → GetEffectiveGroupKey row ∉ excl →
        GetEffectiveGroupKey row = k → row.weight ≤ v := by
  intro pool
  induction pool with
  | nil => intro m k v _ row hrow; simp at hrow
  | cons r rest ih =>
    intro m k v h row hrow he hx hk
    rw [List.foldl_cons] at h
    rcases List.mem_cons.mp hrow with rfl | hrow'
    · subst hk
      have hstep : groupStep itemLevel excl m row =
          insertGroupWeight m (GetEffectiveGroupKey row) row.weight := by
        simp [groupStep, he, hx]
      rw [hstep] at h
      have hbase : ∃ u, row.weight ≤ u ∧
          lookupGW (insertGroupWeight m (GetEffectiveGroupKey row) row.weight)
            (GetEffectiveGroupKey row) = some u := by
        cases hlm : lookupGW m (GetEffectiveGroupKey row) with
        | none => exact ⟨row.weight, le_refl _, lookupGW_insert_self_none hlm⟩
        | some u =>
          exact ⟨Nat.max u row.weight, Nat.le_max_right _ _, lookupGW_insert_self_some hlm⟩
      obtain ⟨u, hu, hl⟩ := hbase
      obtain ⟨v', hv', hl'⟩ := lookupGW_le_foldl_groupStep itemLevel excl rest _ _ _ hl
      rw [h] at hl'
      cases hl'
      omega
    · exact ih _ k v h row hrow' he hx hk

theorem buildGroupWeights_append_dominated (pool : List SlamrockWhitelistRow)
    (itemLevel : Nat) (excl : List String) (row : SlamrockWhitelistRow) (v : Nat)
    (hkv : lookupGW (buildGroupWeights pool itemLevel excl) (GetEffectiveGroupKey row) = some v)
    (hw : row.weight ≤ v) :
    buildGroupWeights (pool ++ [row]) itemLevel excl =
      buildGroupWeights pool itemLevel excl := by
  rw [buildGroupWeights, buildGroupWeights, List.foldl_append, List.foldl_cons, List.foldl_nil]
  rw [buildGroupWeights] at hkv
  by_cases he : rowEligible row itemLevel
  · by_cases hx : GetEffectiveGroupKey row ∈ excl
    · simp [groupStep, he, hx]
    · rw [show groupStep itemLevel excl (List.foldl (groupStep itemLevel excl) [] pool) row =
          insertGroupWeight (List.foldl (groupStep itemLevel excl) [] pool)
            (GetEffectiveGroupKey row) row.weight by simp [groupStep, he, hx]]
      exact insertGroupWeight_of_le hkv hw
  · simp [groupStep, he]

/-- Claim C3 (amended): the sampler weighs each candidate group by the maximum
weight among its eligible rows (not the sum) — the looked-up group weight is
attained by an eligible row and bounds the weight of every eligible row of the
group — and appending a row whose weight does not exceed the group's current
maximum leaves the group-weight table, and hence every selection, unchanged.
(Appending a strictly heavier row can raise the group's selection probability,
see the counterexample.) -/
theorem c3_group_weight_is_max (pool : List SlamrockWhitelistRow) (itemLevel : Nat)
    (excl : List String) (k : String) (v : Nat)
    (h : lookupGW (buildGroupWeights pool itemLevel excl) k = some v) :
    (∃ row ∈ pool, rowEligible row itemLevel = true ∧ GetEffectiveGroupKey row ∉ excl ∧
        GetEffectiveGroupKey row = k ∧ row.weight = v) ∧
    (∀ row ∈ pool, rowEligible row itemLevel = true → GetEffectiveGroupKey row ∉ excl →
        GetEffectiveGroupKey row = k → row.weight ≤ v) ∧
    (∀ row : SlamrockWhitelistRow, GetEffectiveGroupKey row = k → row.weight ≤ v →
        ∀ roll, PickWeightedGroupFromWhitelist (pool ++ [row]) itemLevel excl roll =
          PickWeightedGroupFromWhitelist pool itemLevel excl roll) := by
  refine ⟨?_, ?_, ?_⟩
  · rcases lookupGW_foldl_attained itemLevel excl pool [] k v h with h' | h'
    · simp [lookupGW] at h'
    · exact h'
  · exact lookupGW_foldl_bound itemLevel excl pool [] k v h
  · intro row hkr hwr roll
    have hb := buildGroupWeights_append_dominated pool itemLevel excl row v
      (by rw [hkr]; exact h) hwr
    rw [PickWeightedGroupFromWhitelist, PickWeightedGroupFromWhitelist, hb]

def c3WPool : List SlamrockWhitelistRow := [⟨11, "G", 1, 0, 5⟩, ⟨12, "G", 2, 0, 9⟩]

/-- Witness for C3: a group with rows of weights 5 and 9 gets effective
weight 9 (not the sum 14), and 9 bounds every eligible row of the group. -/
theorem c3_group_weight_is_max_witness :
    lookupGW (buildGroupWeights c3WPool 0 []) "G" = some 9 ∧
    (∀ row ∈ c3WPool, rowEligible row 0 = true → GetEffectiveGroupKey row ∉ ([] : List String) →
        GetEffectiveGroupKey row = "G" → row.weight ≤ 9) :=
  ⟨by decide, (c3_group_weight_is_max c3WPool 0 [] "G" 9 (by decide)).2.1⟩

/-- Number of draws in `[1, totalWeight]` that select `key`. -/
def selectionCount (pool : List SlamrockWhitelistRow) (itemLevel : Nat)
    (excl : List String) (key : String) : Nat :=
  (List.range (totalGroupWeight (buildGroupWeights pool itemLevel excl))).countP
    (fun i => PickWeightedGroupFromWhitelist pool itemLevel excl (i + 1) == some key)

/-- Probability that a uniform draw in `[1, totalWeight]` selects `key`. -/
def selectionProb (pool : List SlamrockWhitelistRow) (itemLevel : Nat)
    (excl : List String) (key : String) : ℚ :=
  (selectionCount pool itemLevel excl key : ℚ) /
    (totalGroupWeight (buildGroupWeights pool itemLevel excl) : ℚ)

def c3PoolBase : List SlamrockWhitelistRow := [⟨1, "A", 1, 0, 5⟩, ⟨3, "H", 1, 0, 10⟩]

def c3AddedRow : SlamrockWhitelistRow := ⟨2, "A", 2, 0, 9⟩

def c3PoolGrown : List SlamrockWhitelistRow := c3PoolBase ++ [c3AddedRow]

/-- Counterexample to C3 as stated: appending one more row (weight 9) to group
"A" (current maximum 5) raises the group's selection probability from 5/15 to
9/19, so adding rows to a group can increase its selection probability
relative to other groups. -/
theorem c3_more_rows_increase_probability :
    c3PoolGrown = c3PoolBase ++ [c3AddedRow] ∧
    GetEffectiveGroupKey c3AddedRow = "A" ∧
    selectionProb c3PoolBase 0 [] "A" < selectionProb c3PoolGrown 0 [] "A" := by
  refine ⟨rfl, by decide, ?_⟩
  have h1 : selectionCount c3PoolBase 0 [] "A" = 5 := by decide
  have h2 : selectionCount c3PoolGrown 0 [] "A" = 9 := by decide
  have h3 : totalGroupWeight (buildGroupWeights c3PoolBase 0 []) = 15 := by decide
  have h4 : totalGroupWeight (buildGroupWeights c3PoolGrown 0 []) = 19 := by decide
  unfold selectionProb
  rw [h1, h2, h3, h4]
  norm_num

/-! ### Claim C1 -/

def c1Pool : List SlamrockWhitelistRow := [⟨1, "A", 1, 0, 10⟩, ⟨2, "B", 1, 0, 10⟩]

/-- Claim C1, evaluated at the spec's own scenario (two groups "A" and "B",
item tier 0, modifier count drawn as 3): because the roll loop passes the
never-updated `noExclusions` list to the group sampler, it returns three
entries all drawn from group "A" — two entries share an effective group key
and the result has three entries, not the two the claim requires. -/
theorem c1_roll_duplicate_groups_eval :
    rollModifiers c1Pool 0 3 (fun _ => (1, 1)) = [1, 1, 1] ∧
    (rollModifiers c1Pool 0 3 (fun _ => (1, 1))).length ≠ 2 := by
  exact ⟨by decide, by decide⟩

/-! ### Claim C6 -/

theorem eligibleRanks_cons (itemLevel : Nat) (groupKey : String)
    (row : SlamrockWhitelistRow) (rest : List SlamrockWhitelistRow) :
    eligibleRanks (row :: rest) itemLevel groupKey =
      if rowMatchesGroup row itemLevel groupKey then
        row :: eligibleRanks rest itemLevel groupKey
      else eligibleRanks rest itemLevel groupKey := by
  simp [eligibleRanks, List.filter_cons]

theorem walkRanks_spec (itemLevel : Nat) (groupKey : String) :
    ∀ (l : List SlamrockWhitelistRow) (roll seen : Nat),
      seen < roll →
      roll ≤ seen + (eligibleRanks l itemLevel groupKey).length →
      walkRanks itemLevel groupKey l roll seen =
        ((eligibleRanks l itemLevel groupKey).get? (roll - seen - 1)).map
          (fun row => row.enchantId) := by
  intro l
  induction l with
  | nil =>
    intro roll seen h1 h2
    exfalso
    simp [eligibleRanks] at h2
    omega
  | cons row rest ih =>
    intro roll seen h1 h2
    rw [eligibleRanks_cons] at h2 ⊢
    by_cases hm : rowMatchesGroup row itemLevel groupKey
    · rw [if_pos hm] at h2 ⊢
      by_cases hr : roll ≤ seen + 1
      · have hroll : roll = seen + 1 := by omega
        subst hroll
        have hzero : seen + 1 - seen - 1 = 0 := by omega
        rw [hzero]
        simp [walkRanks, hm]
      · have hidx : roll - seen - 1 = (roll - (seen + 1) - 1) + 1 := by omega
        rw [hidx, List.get?_cons_succ]
        rw [show walkRanks itemLevel groupKey (row :: rest) roll seen =
            walkRanks itemLevel groupKey rest roll (seen + 1) by
          simp [walkRanks, hm, hr]]
        apply ih roll (seen + 1) (by omega)
        simp at h2
        omega
    · rw [if_neg hm] at h2 ⊢
      rw [show walkRanks itemLevel groupKey (row :: rest) roll seen =
          walkRanks itemLevel groupKey rest roll seen by simp [walkRanks, hm]]
      exact ih roll seen h1 h2

/-- Claim C6: the rank picker fails exactly when no eligible row of the group
exists; otherwise, for every draw in `[1, eligibleCount]`, it returns the
enchant id of the row at that ordinal position of the eligible list (one
chance per eligible rank), and with exactly one eligible row it returns that
row's id. -/
theorem c6_rank_picker_uniform (pool : List SlamrockWhitelistRow) (itemLevel : Nat)
    (groupKey : String) :
    ((eligibleRanks pool itemLevel groupKey).length = 0 →
        ∀ roll, PickRandomEligibleRankEnchantForGroup pool itemLevel groupKey roll = none) ∧
    (∀ roll, 1 ≤ roll → roll ≤ (eligibleRanks pool itemLevel groupKey).length →
        PickRandomEligibleRankEnchantForGroup pool itemLevel groupKey roll =
          ((eligibleRanks pool itemLevel groupKey).get? (roll - 1)).map
            (fun row => row.enchantId)) ∧
    (∀ row : SlamrockWhitelistRow, eligibleRanks pool itemLevel groupKey = [row] →
        PickRandomEligibleRankEnchantForGroup pool itemLevel groupKey 1 =
          some row.enchantId) := by
  refine ⟨?_, ?_, ?_⟩
  · intro h0 roll
    simp [PickRandomEligibleRankEnchantForGroup, h0]
  · intro roll h1 h2
    have hne : (eligibleRanks pool itemLevel groupKey).length ≠ 0 := by omega
    rw [PickRandomEligibleRankEnchantForGroup, if_neg hne]
    have hw := walkRanks_spec itemLevel groupKey pool roll 0 (by omega) (by omega)
    simpa using hw
  · intro row hrow
    have hne : (eligibleRanks pool itemLevel groupKey).length ≠ 0 := by
      rw [hrow]; simp
    rw [PickRandomEligibleRankEnchantForGroup, if_neg hne]
    have hw := walkRanks_spec itemLevel groupKey pool 1 0 (by omega)
      (by rw [hrow]; simp)
    rw [hw, hrow]
    simp

def c6Pool : List SlamrockWhitelistRow := [⟨21, "R", 1, 0, 7⟩]

/-- Witness for C6: a group with a single eligible row always yields that
row's enchant id. -/
theorem c6_rank_picker_uniform_witness :
    PickRandomEligibleRankEnchantForGroup c6Pool 0 "R" 1 = some 21 :=
  (c6_rank_picker_uniform c6Pool 0 "R").2.2 ⟨21, "R", 1, 0, 7⟩ (by decide)

/-! ### Item catalog model and tier-bounded swap selectors -/

/-- The fields of `ItemPrototype` used by the swap selectors. -/
structure ItemPrototype where
  ItemId : Nat
  Class : Nat
  SubClass : Nat
  InventoryType : Nat
  ItemLevel : Nat
deriving DecidableEq

/-- The index filter shared by both selectors:
`InventoryType != INVTYPE_NON_EQUIP && InventoryType != INVTYPE_BAG`. -/
def equippableGear (p : ItemPrototype) : Bool :=
  !(decide (p.InventoryType = INVTYPE_NON_EQUIP)) && !(decide (p.InventoryType = INVTYPE_BAG))

/-- struct ItemTypeKey: (class, subclass, inventory type). -/
structure ItemTypeKey where
  itemClass : Nat
  subClass : Nat
  inventoryType : Nat
deriving DecidableEq

def typeKeyOf (p : ItemPrototype) : ItemTypeKey :=
  ⟨p.Class, p.SubClass, p.InventoryType⟩

/-- Insertion into a list of (ItemLevel, entry) pairs kept ascending by level,
modelling the `std::sort` by `a.first < b.first`. -/
def insertByIlvl (x : Nat × Nat) : List (Nat × Nat) → List (Nat × Nat)
  | [] => [x]
  | y :: ys => if x.1 ≤ y.1 then x :: y :: ys else y :: insertByIlvl x ys

def sortByIlvl : List (Nat × Nat) → List (Nat × Nat)
  | [] => []
  | x :: xs => insertByIlvl x (sortByIlvl xs)

/-- The `byType` index entry for one category key: every equippable catalog
item with that (class, subclass, inventory type), as (ItemLevel, ItemId)
pairs sorted ascending by level (`PickDowngradeEntry`, lines 395-421). -/
def sameTypeVec (catalog : List ItemPrototype) (key : ItemTypeKey) : List (Nat × Nat) :=
  sortByIlvl ((catalog.filter
    (fun p => equippableGear p && decide (typeKeyOf p = key))).map
      (fun p => (p.ItemLevel, p.ItemId)))

/-- The `byClass` index entry for one item class (`PickUpgradeEntrySameClass`,
lines 463-487). -/
def sameClassVec (catalog : List ItemPrototype) (cls : Nat) : List (Nat × Nat) :=
  sortByIlvl ((catalog.filter
    (fun p => equippableGear p && decide (p.Class = cls))).map
      (fun p => (p.ItemLevel, p.ItemId)))

/-- The candidate scan of `PickDowngradeEntry` (lines 435-444):
`if (it.first >= ItemLevel) break; if (it.second == ItemId) continue;`. -/
def collectLowerCandidates : List (Nat × Nat) → Nat → Nat → List Nat
  | [], _, _ => []
  | (lvl, entry) :: rest, targetIlvl, targetId =>
    if targetIlvl ≤ lvl then []
    else if entry = targetId then collectLowerCandidates rest targetIlvl targetId
    else entry :: collectLowerCandidates rest targetIlvl targetId

/-- The candidate scan of `PickUpgradeEntrySameClass` (lines 499-510):
`if (it.first < targetIlvl) continue; if (it.first > maxIlvl) break;
if (it.second == ItemId) continue;`. -/
def collectUpgradeCandidates : List (Nat × Nat) → Nat → Nat → Nat → List Nat
  | [], _, _, _ => []
  | (lvl, entry) :: rest, targetIlvl, maxIlvl, targetId =>
    if lvl < targetIlvl then collectUpgradeCandidates rest targetIlvl maxIlvl targetId
    else if maxIlvl < lvl then []
    else if entry = targetId then collectUpgradeCandidates rest targetIlvl maxIlvl targetId
    else entry :: collectUpgradeCandidates rest targetIlvl maxIlvl targetId

/-- Source: PickDowngradeEntry.  Returns 0 for "no candidate"; the draw
`urand(0, candidates.size() - 1)` is passed in as `roll`. -/
def PickDowngradeEntry (catalog : List ItemPrototype) (targetProto : ItemPrototype)
    (roll : Nat) : Nat :=
  if targetProto.ItemLevel = 0 then 0
  else if (collectLowerCandidates (sameTypeVec catalog (typeKeyOf targetProto))
      targetProto.ItemLevel targetProto.ItemId).isEmpty then 0
  else (collectLowerCandidates (sameTypeVec catalog (typeKeyOf targetProto))
      targetProto.ItemLevel targetProto.ItemId).getD roll 0

/-- Source: PickUpgradeEntrySameClass.  `maxIlvl = targetIlvl + maxIlvlDelta`
is a uint32 sum, hence the reduction modulo `2 ^ 32`. -/
def PickUpgradeEntrySameClass (catalog : List ItemPrototype) (targetProto : ItemPrototype)
    (maxIlvlDelta : Nat) (roll : Nat) : Nat :=
  if (collectUpgradeCandidates (sameClassVec catalog targetProto.Class)
      targetProto.ItemLevel ((targetProto.ItemLevel + maxIlvlDelta) % 2 ^ 32)
      targetProto.ItemId).isEmpty then 0
  else (collectUpgradeCandidates (sameClassVec catalog targetProto.Class)
      targetProto.ItemLevel ((targetProto.ItemLevel + maxIlvlDelta) % 2 ^ 32)
      targetProto.ItemId).getD roll 0

theorem mem_insertByIlvl :
    ∀ {l : List (Nat × Nat)} {x y : Nat × Nat}, y ∈ insertByIlvl x l → y = x ∨ y ∈ l := by
  intro l
  induction l with
  | nil => intro x y h; simpa [insertByIlvl] using h
  | cons z zs ih =>
    intro x y h
    by_cases hc : x.1 ≤ z.1
    · rw [show insertByIlvl x (z :: zs) = x :: z :: zs by simp [insertByIlvl, hc]] at h
      rcases List.mem_cons.mp h with rfl | h'
      · exact Or.inl rfl
      · exact Or.inr h'
    · rw [show insertByIlvl x (z :: zs) = z :: insertByIlvl x zs by simp [insertByIlvl, hc]] at h
      rcases List.mem_cons.mp h with rfl | h'
      · exact Or.inr (List.mem_cons_self _ _)
      · rcases ih h' with h'' | h''
        · exact Or.inl h''
        · exact Or.inr (List.mem_cons_of_mem _ h'')

theorem mem_sortByIlvl : ∀ {l : List (Nat × Nat)} {y : Nat × Nat},
    y ∈ sortByIlvl l → y ∈ l := by
  intro l
  induction l with
  | nil => intro y h; simp [sortByIlvl] at h
  | cons x xs ih =>
    intro y h
    rw [sortByIlvl] at h
    rcases mem_insertByIlvl h with rfl | h'
    · exact List.mem_cons_self _ _
    · exact List.mem_cons_of_mem _ (ih h')

theorem mem_collectLowerCandidates :
    ∀ (vec : List (Nat × Nat)) (t tid x : Nat),
      x ∈ collectLowerCandidates vec t tid →
      ∃ lvl, (lvl, x) ∈ vec ∧ lvl < t ∧ x ≠ tid := by
  intro vec
  induction vec with
  | nil => intro t tid x h; simp [collectLowerCandidates] at h
  | cons p rest ih =>
    intro t tid x h
    obtain ⟨lvl0, id0⟩ := p
    by_cases h1 : t ≤ lvl0
    · simp [collectLowerCandidates, h1] at h
    · by_cases h2 : id0 = tid
      · rw [show collectLowerCandidates ((lvl0, id0) :: rest) t tid =
            collectLowerCandidates rest t tid by simp [collectLowerCandidates, h1, h2]] at h
        obtain ⟨lvl, hm, hlt, hne⟩ := ih t tid x h
        exact ⟨lvl, List.mem_cons_of_mem _ hm, hlt, hne⟩
      · rw [show collectLowerCandidates ((lvl0, id0) :: rest) t tid =
            id0 :: collectLowerCandidates rest t tid by
          simp [collectLowerCandidates, h1, h2]] at h
        rcases List.mem_cons.mp h with rfl | h'
        · exact ⟨lvl0, List.mem_cons_self _ _, by omega, h2⟩
        · obtain ⟨lvl, hm, hlt, hne⟩ := ih t tid x h'
          exact ⟨lvl, List.mem_cons_of_mem _ hm, hlt, hne⟩

theorem mem_collectUpgradeCandidates :
    ∀ (vec : List (Nat × Nat)) (t maxI tid x : Nat),
      x ∈ collectUpgradeCandidates vec t maxI tid →
      ∃ lvl, (lvl, x) ∈ vec ∧ t ≤ lvl ∧ lvl ≤ maxI ∧ x ≠ tid := by
  intro vec
  induction vec with
  | nil => intro t maxI tid x h; simp [collectUpgradeCandidates] at h
  | cons p rest ih =>
    intro t maxI tid x h
    obtain ⟨lvl0, id0⟩ := p
    by_cases h1 : lvl0 < t
    · rw [show collectUpgradeCandidates ((lvl0, id0) :: rest) t maxI tid =
          collectUpgradeCandidates rest t maxI tid by
        simp [collectUpgradeCandidates, h1]] at h
      obtain ⟨lvl, hm, ha, hb, hne⟩ := ih t maxI tid x h
      exact ⟨lvl, List.mem_cons_of_mem _ hm, ha, hb, hne⟩
    · by_cases h2 : maxI < lvl0
      · simp [collectUpgradeCandidates, h1, h2] at h
      · by_cases h3 : id0 = tid
        · rw [show collectUpgradeCandidates ((lvl0, id0) :: rest) t maxI tid =
              collectUpgradeCandidates rest t maxI tid by
            simp [collectUpgradeCandidates, h1, h2, h3]] at h
          obtain ⟨lvl, hm, ha, hb, hne⟩ := ih t maxI tid x h
          exact ⟨lvl, List.mem_cons_of_mem _ hm, ha, hb, hne⟩
        · rw [show collectUpgradeCandidates ((lvl0, id0) :: rest) t maxI tid =
              id0 :: collectUpgradeCandidates rest t maxI tid by
            simp [collectUpgradeCandidates, h1, h2, h3]] at h
          rcases List.mem_cons.mp h with rfl | h'
          · exact ⟨lvl0, List.mem_cons_self _ _, by omega, by omega, h3⟩
          · obtain ⟨lvl, hm, ha, hb, hne⟩ := ih t maxI tid x h'
            exact ⟨lvl, List.mem_cons_of_mem _ hm, ha, hb, hne⟩

theorem getD_zero_mem : ∀ {l : List Nat} {n : Nat}, l.getD n 0 ≠ 0 → l.getD n 0 ∈ l := by
  intro l
  induction l with
  | nil => intro n h; simp [List.getD] at h
  | cons a t ih =>
    intro n h
    cases n with
    | zero => simp
    | succ n =>
      rw [List.getD_cons_succ] at h ⊢
      exact List.mem_cons_of_mem _ (ih h)

theorem mem_sameTypeVec {catalog : List ItemPrototype} {key : ItemTypeKey} {lvl x : Nat}
    (h : (lvl, x) ∈ sameTypeVec catalog key) :
    ∃ p ∈ catalog, equippableGear p = true ∧ typeKeyOf p = key ∧
      p.ItemLevel = lvl ∧ p.ItemId = x := by
  have h1 := mem_sortByIlvl h
  rw [List.mem_map] at h1
  obtain ⟨p, hp, hf⟩ := h1
  rw [List.mem_filter] at hp
  obtain ⟨hpc, hpred⟩ := hp
  simp only [Bool.and_eq_true, decide_eq_true_eq] at hpred
  obtain ⟨hlvl, hid⟩ := Prod.mk.injEq .. ▸ hf
  exact ⟨p, hpc, hpred.1, hpred.2, hlvl, hid⟩

theorem mem_sameClassVec {catalog : List ItemPrototype} {cls : Nat} {lvl x : Nat}
    (h : (lvl, x) ∈ sameClassVec catalog cls) :
    ∃ p ∈ catalog, equippableGear p = true ∧ p.Class = cls ∧
      p.ItemLevel = lvl ∧ p.ItemId = x := by
  have h1 := mem_sortByIlvl h
  rw [List.mem_map] at h1
  obtain ⟨p, hp, hf⟩ := h1
  rw [List.mem_filter] at hp
  obtain ⟨hpc, hpred⟩ := hp
  simp only [Bool.and_eq_true, decide_eq_true_eq] at hpred
  obtain ⟨hlvl, hid⟩ := Prod.mk.injEq .. ▸ hf
  exact ⟨p, hpc, hpred.1, hpred.2, hlvl, hid⟩

def c4Catalog : List ItemPrototype :=
  [⟨100, 2, 1, 1, 10⟩, ⟨200, 2, 1, 1, 20⟩, ⟨300, 2, 1, 1, 30⟩]

def c4Target : ItemPrototype := ⟨200, 2, 1, 1, 20⟩

/-- Claim C4: the downgrade selector returns 0 ("none") for tier-0 items;
any nonzero id it returns belongs to a catalog item with the same
(class, subclass, inventory type) key, strictly lower tier, and a different
id; in the index [(10,100),(20,200),(30,300)] with target tier 20 the only
candidate is 100; and each in-range draw returns the corresponding entry of
the candidate list (uniform pick over the candidates). -/
theorem c4_downgrade_selector (catalog : List ItemPrototype) (target : ItemPrototype) :
    (target.ItemLevel = 0 → ∀ roll, PickDowngradeEntry catalog target roll = 0) ∧
    (∀ roll, PickDowngradeEntry catalog target roll ≠ 0 →
        ∃ p ∈ catalog, p.ItemId = PickDowngradeEntry catalog target roll ∧
          p.Class = target.Class ∧ p.SubClass = target.SubClass ∧
          p.InventoryType = target.InventoryType ∧
          p.ItemLevel < target.ItemLevel ∧ p.ItemId ≠ target.ItemId) ∧
    (collectLowerCandidates (sameTypeVec c4Catalog (typeKeyOf c4Target))
        c4Target.ItemLevel c4Target.ItemId = [100]) ∧
    (∀ roll, target.ItemLevel ≠ 0 →
        (collectLowerCandidates (sameTypeVec catalog (typeKeyOf target))
          target.ItemLevel target.ItemId).isEmpty = false →
        PickDowngradeEntry catalog target roll =
          (collectLowerCandidates (sameTypeVec catalog (typeKeyOf target))
            target.ItemLevel target.ItemId).getD roll 0) := by
  refine ⟨?_, ?_, by decide, ?_⟩
  · intro h0 roll
    simp [PickDowngradeEntry, h0]
  · intro roll h
    by_cases h0 : target.ItemLevel = 0
    · rw [PickDowngradeEntry, if_pos h0] at h
      exact absurd rfl h
    · rw [PickDowngradeEntry, if_neg h0] at h
      by_cases hc : (collectLowerCandidates (sameTypeVec catalog (typeKeyOf target))
          target.ItemLevel target.ItemId).isEmpty
      · rw [if_pos hc] at h
        exact absurd rfl h
      · rw [if_neg hc] at h
        rw [PickDowngradeEntry, if_neg h0, if_neg hc]
        have hmem := getD_zero_mem h
        obtain ⟨lvl, hvec, hlt, hne⟩ := mem_collectLowerCandidates _ _ _ _ hmem
        obtain ⟨p, hp, _, hkey, hlvl, hid⟩ := mem_sameTypeVec hvec
        have hkey' : p.Class = target.Class ∧ p.SubClass = target.SubClass ∧
            p.InventoryType = target.InventoryType := by
          have := congrArg ItemTypeKey.itemClass hkey
          have := congrArg ItemTypeKey.subClass hkey
          have := congrArg ItemTypeKey.inventoryType hkey
          exact ⟨by assumption, by assumption, by assumption⟩
        exact ⟨p, hp, hid, hkey'.1, hkey'.2.1, hkey'.2.2, by omega, by rw [hid]; exact hne⟩
  · intro roll h0 hc
    rw [PickDowngradeEntry, if_neg h0, if_neg (by rw [hc]; exact Bool.false_ne_true)]

/-- Witness for C4: at the scenario catalog, draw 0 returns item 100, which
satisfies every required property. -/
theorem c4_downgrade_selector_witness :
    ∃ p ∈ c4Catalog, p.ItemId = PickDowngradeEntry c4Catalog c4Target 0 ∧
      p.Class = c4Target.Class ∧ p.SubClass = c4Target.SubClass ∧
      p.InventoryType = c4Target.InventoryType ∧
      p.ItemLevel < c4Target.ItemLevel ∧ p.ItemId ≠ c4Target.ItemId :=
  (c4_downgrade_selector c4Catalog c4Target).2.1 0 (by decide)

def c5Catalog : List ItemPrototype :=
  [⟨100, 2, 1, 1, 10⟩, ⟨200, 2, 1, 1, 20⟩, ⟨300, 2, 1, 1, 24⟩, ⟨400, 2, 1, 1, 30⟩]

def c5Target : ItemPrototype := ⟨200, 2, 1, 1, 20⟩

/-- Claim C5: any nonzero id returned by the upgrade selector belongs to a
catalog item of the same class with tier in
[target.ItemLevel, target.ItemLevel + maxIlvlDelta] and a different id, and
each in-range draw returns the corresponding entry of the candidate list
(uniform pick over the candidates). -/
theorem c5_upgrade_selector (catalog : List ItemPrototype) (target : ItemPrototype)
    (maxDelta : Nat) :
    (∀ roll, PickUpgradeEntrySameClass catalog target maxDelta roll ≠ 0 →
        ∃ p ∈ catalog, p.ItemId = PickUpgradeEntrySameClass catalog target maxDelta roll ∧
          p.Class = target.Class ∧ target.ItemLevel ≤ p.ItemLevel ∧
          p.ItemLevel ≤ target.ItemLevel + maxDelta ∧ p.ItemId ≠ target.ItemId) ∧
    (∀ roll, (collectUpgradeCandidates (sameClassVec catalog target.Class)
          target.ItemLevel ((target.ItemLevel + maxDelta) % 2 ^ 32)
          target.ItemId).isEmpty = false →
        PickUpgradeEntrySameClass catalog target maxDelta roll =
          (collectUpgradeCandidates (sameClassVec catalog target.Class)
            target.ItemLevel ((target.ItemLevel + maxDelta) % 2 ^ 32)
            target.ItemId).getD roll 0) := by
  constructor
  · intro roll h
    by_cases hc : (collectUpgradeCandidates (sameClassVec catalog target.Class)
        target.ItemLevel ((target.ItemLevel + maxDelta) % 2 ^ 32) target.ItemId).isEmpty
    · rw [PickUpgradeEntrySameClass, if_pos hc] at h
      exact absurd rfl h
    · rw [PickUpgradeEntrySameClass, if_neg hc] at h
      rw [PickUpgradeEntrySameClass, if_neg hc]
      have hmem := getD_zero_mem h
      obtain ⟨lvl, hvec, ha, hb, hne⟩ := mem_collectUpgradeCandidates _ _ _ _ _ hmem
      obtain ⟨p, hp, _, hcls, hlvl, hid⟩ := mem_sameClassVec hvec
      have hmod : (target.ItemLevel + maxDelta) % 2 ^ 32 ≤ target.ItemLevel + maxDelta :=
        Nat.mod_le _ _
      exact ⟨p, hp, hid, hcls, by omega, by omega, by rw [hid]; exact hne⟩
  · intro roll hc
    rw [PickUpgradeEntrySameClass, if_neg (by rw [hc]; exact Bool.false_ne_true)]

/-- Witness for C5: with delta 5 and target tier 20, the selector returns
item 300 (tier 24), inside [20, 25]. -/
theorem c5_upgrade_selector_witness :
    ∃ p ∈ c5Catalog, p.ItemId = PickUpgradeEntrySameClass c5Catalog c5Target 5 0 ∧
      p.Class = c5Target.Class ∧ c5Target.ItemLevel ≤ p.ItemLevel ∧
      p.ItemLevel ≤ c5Target.ItemLevel + 5 ∧ p.ItemId ≠ c5Target.ItemId :=
  (c5_upgrade_selector c5Catalog c5Target 5).1 0 (by decide)

/-! ### Enchantment slot model and the slot reconciler (clear / apply) -/

/-- The enchantment slots of a target item used by the script: the permanent
slot and the four property slots (`PERM_ENCHANTMENT_SLOT`,
`PROP_ENCHANTMENT_SLOT_0 .. _3`; the temporary slot is never touched). -/
inductive EnchSlot
  | perm
  | prop0
  | prop1
  | prop2
  | prop3
deriving DecidableEq

/-- Enchantment ids stored per slot (0 = empty), as read by
`Item::GetEnchantmentId` and written by `Item::SetEnchantment` /
`Item::ClearEnchantment`. -/
structure ItemSlots where
  perm : Nat
  prop0 : Nat
  prop1 : Nat
  prop2 : Nat
  prop3 : Nat
deriving DecidableEq

def getEnchantmentId (s : ItemSlots) : EnchSlot → Nat
  | .perm => s.perm
  | .prop0 => s.prop0
  | .prop1 => s.prop1
  | .prop2 => s.prop2
  | .prop3 => s.prop3

def setEnchantment (s : ItemSlots) : EnchSlot → Nat → ItemSlots
  | .perm, e => { s with perm := e }
  | .prop0, e => { s with prop0 := e }
  | .prop1, e => { s with prop1 := e }
  | .prop2, e => { s with prop2 := e }
  | .prop3, e => { s with prop3 := e }

/-- The modelled state of a target item: its enchantment slots, whether it is
in an equipment slot (`GetSlot() < EQUIPMENT_SLOT_END`), and the multiset of
live enchantment effects currently applied to the owning player, as
(slot, enchant id) pairs. -/
@[ext]
structure TargetState where
  slots : ItemSlots
  equipped : Bool
  effects : List (EnchSlot × Nat)
deriving DecidableEq

/-- `Player::ApplyEnchantment(item, slot, apply)`: reads the enchant id in
`slot`; returns immediately when the slot is empty; otherwise applies
(appends) or removes the live effect of that enchant. -/
def applyEnchantment (st : TargetState) (sl : EnchSlot) (apply : Bool) : TargetState :=
  if getEnchantmentId st.slots sl = 0 then st
  else if apply = true then
    { st with effects := st.effects ++ [(sl, getEnchantmentId st.slots sl)] }
  else
    { st with effects :=
        st.effects.filter (fun e => !(decide (e = (sl, getEnchantmentId st.slots sl)))) }

def SLAMROCK_ALL_PROP_SLOT_LIST : List EnchSlot := [.prop0, .prop1, .prop2, .prop3]

def SLAMROCK_MODIFIER_SLOT_LIST : List EnchSlot := [.prop1, .prop2, .prop3]

/-- The unapply loop of `ClearSlamrockEnchants`:
`for (EnchantmentSlot slot : SLAMROCK_ALL_PROP_SLOTS) ApplyEnchantment(item, slot, false)`. -/
def unapplySlots (st : TargetState) : List EnchSlot → TargetState
  | [] => st
  | sl :: rest => unapplySlots (applyEnchantment st sl false) rest

/-- The slot-clearing part of `ClearSlamrockEnchants`: empty every property
slot, and empty the permanent slot only when it holds the Slamrock marker
(`GetEnchantmentId(PERM) == SLAMROCK_MARKER_ENCHANT_ID`). -/
def clearSlots (s : ItemSlots) : ItemSlots :=
  { perm := if s.perm = SLAMROCK_MARKER_ENCHANT_ID then 0 else s.perm
    prop0 := 0, prop1 := 0, prop2 := 0, prop3 := 0 }

/-- Source: ClearSlamrockEnchants (lines 630-659).  The derived-stat refresh
and visible-slot update mutate no modelled state. -/
def ClearSlamrockEnchants (st : TargetState) : TargetState :=
  let st1 := if st.equipped then unapplySlots st SLAMROCK_ALL_PROP_SLOT_LIST else st
  { st1 with slots := clearSlots st1.slots }

/-- The `SetEnchantment(SLAMROCK_MODIFIER_SLOTS[i], rolled[i], ...)` loop for
`i < rolled.size() && i < SLAMROCK_MAX_MODIFIERS`. -/
def setModifierSlots (s : ItemSlots) : List Nat → ItemSlots
  | [] => s
  | [a] => setEnchantment s .prop1 a
  | [a, b] => setEnchantment (setEnchantment s .prop1 a) .prop2 b
  | a :: b :: c :: _ =>
    setEnchantment (setEnchantment (setEnchantment s .prop1 a) .prop2 b) .prop3 c

/-- The slot writes of the apply phase of `ItemUse_item_slamrock`
(lines 879-889): marker to the permanent slot when it is empty, else to
property slot 0; modifiers to property slots 1..3. -/
def applySlots (s : ItemSlots) (rolled : List Nat) : ItemSlots :=
  if s.perm = 0 then
    setModifierSlots (setEnchantment s .perm SLAMROCK_MARKER_ENCHANT_ID) rolled
  else
    setModifierSlots (setEnchantment s .prop0 SLAMROCK_MARKER_ENCHANT_ID) rolled

/-- `SLAMROCK_MODIFIER_SLOTS[0..n)`. -/
def modSlotsFor (n : Nat) : List EnchSlot := SLAMROCK_MODIFIER_SLOT_LIST.take n

/-- The live-effect application loop of the apply phase (lines 900-916):
`ApplyEnchantment(marker slot PROP_0, true)` then each used modifier slot. -/
def applySlotEffects (st : TargetState) : List EnchSlot → TargetState
  | [] => st
  | sl :: rest => applySlotEffects (applyEnchantment st sl true) rest

/-- The apply phase of `ItemUse_item_slamrock` (lines 879-916): write the
marker and modifier slots, then, when equipped, apply the live effects of
property slot 0 and the used modifier slots. -/
def ApplySlamrockEnchants (st : TargetState) (rolled : List Nat) : TargetState :=
  if st.equipped then
    applySlotEffects { st with slots := applySlots st.slots rolled }
      (EnchSlot.prop0 :: modSlotsFor rolled.length)
  else { st with slots := applySlots st.slots rolled }

/-- `ClearSlamrockEnchants` followed immediately by the apply phase, as run
by `ItemUse_item_slamrock` (lines 874-916). -/
def clearThenApply (st : TargetState) (rolled : List Nat) : TargetState :=
  ApplySlamrockEnchants (ClearSlamrockEnchants st) rolled

def emptyTargetState (equipped : Bool) : TargetState := ⟨⟨0, 0, 0, 0, 0⟩, equipped, []⟩

/-- The live-effect list is consistent with the property slots: every
recorded non-permanent effect matches the enchant currently in its slot and
is nonzero.  This holds for any host state (the host applies and removes
effects exactly when slots change) and is preserved by clear-then-apply. -/
def propConsistent (st : TargetState) : Prop :=
  ∀ p ∈ st.effects, p.1 ≠ EnchSlot.perm →
    getEnchantmentId st.slots p.1 = p.2 ∧ p.2 ≠ 0

/-- Effects appended by the live-apply loop over a slot list: one entry per
occupied slot, in loop order. -/
def addedFor (s : ItemSlots) : List EnchSlot → List (EnchSlot × Nat)
  | [] => []
  | sl :: rest =>
    (if getEnchantmentId s sl = 0 then [] else [(sl, getEnchantmentId s sl)]) ++ addedFor s rest

theorem targetState_eq {a b : TargetState} (h1 : a.slots = b.slots)
    (h2 : a.equipped = b.equipped) (h3 : a.effects = b.effects) : a = b := by
  cases a; cases b; simp_all

theorem applyEnchantment_slots (st : TargetState) (sl : EnchSlot) (b : Bool) :
    (applyEnchantment st sl b).slots = st.slots := by
  rw [applyEnchantment]
  split_ifs <;> rfl

theorem applyEnchantment_equipped (st : TargetState) (sl : EnchSlot) (b : Bool) :
    (applyEnchantment st sl b).equipped = st.equipped := by
  rw [applyEnchantment]
  split_ifs <;> rfl

theorem unapplySlots_slots : ∀ (l : List EnchSlot) (st : TargetState),
    (unapplySlots st l).slots = st.slots := by
  intro l
  induction l with
  | nil => intro st; rfl
  | cons sl rest ih =>
    intro st
    rw [unapplySlots, ih, applyEnchantment_slots]

theorem unapplySlots_equipped : ∀ (l : List EnchSlot) (st : TargetState),
    (unapplySlots st l).equipped = st.equipped := by
  intro l
  induction l with
  | nil => intro st; rfl
  | cons sl rest ih =>
    intro st
    rw [unapplySlots, ih, applyEnchantment_equipped]

theorem unapply_effects_filter {st : TargetState} {sl : EnchSlot}
    (h : ∀ y, (sl, y) ∈ st.effects → getEnchantmentId st.slots sl = y ∧ y ≠ 0) :
    (applyEnchantment st sl false).effects =
      st.effects.filter (fun e => !(decide (e.1 = sl))) := by
  by_cases h0 : getEnchantmentId st.slots sl = 0
  · rw [applyEnchantment, if_pos h0]
    refine (List.filter_eq_self.mpr ?_).symm
    intro e he
    obtain ⟨s0, y0⟩ := e
    by_cases hsl : s0 = sl
    · exfalso
      subst hsl
      have h2 := h y0 he
      rw [h0] at h2
      exact h2.2 h2.1.symm
    · simp [hsl]
  · rw [applyEnchantment, if_neg h0, if_neg (by simp)]
    show st.effects.filter _ = st.effects.filter _
    refine List.filter_congr ?_
    intro e he
    obtain ⟨s0, y0⟩ := e
    by_cases hsl : s0 = sl
    · subst hsl
      have h2 := h y0 he
      simp [h2.1]
    · simp [hsl]

theorem unapplySlots_effects :
    ∀ (l : List EnchSlot) (st : TargetState),
      (∀ sl ∈ l, ∀ y, (sl, y) ∈ st.effects → getEnchantmentId st.slots sl = y ∧ y ≠ 0) →
      (unapplySlots st l).effects = st.effects.filter (fun e => !(decide (e.1 ∈ l))) := by
  intro l
  induction l with
  | nil =>
    intro st _
    simp [unapplySlots]
  | cons sl rest ih =>
    intro st h
    rw [unapplySlots]
    have h1 := @unapply_effects_filter st sl (h sl (by simp))
    have hslots : (applyEnchantment st sl false).slots = st.slots :=
      applyEnchantment_slots st sl false
    have h2 := ih (applyEnchantment st sl false) ?_
    · rw [h2, h1, List.filter_filter]
      refine List.filter_congr ?_
      intro e _
      obtain ⟨s0, y0⟩ := e
      by_cases ha : s0 = sl <;> by_cases hb : s0 ∈ rest <;>
        simp [ha, hb, List.mem_cons]
    · intro sl' hsl' y hy
      have hy' : (sl', y) ∈ st.effects := by
        rw [h1] at hy
        exact List.mem_of_mem_filter hy
      rw [hslots]
      exact h sl' (List.mem_cons_of_mem _ hsl') y hy'

theorem mem_addedFor : ∀ (l : List EnchSlot) (s : ItemSlots) (p : EnchSlot × Nat),
    p ∈ addedFor s l → p.1 ∈ l ∧ getEnchantmentId s p.1 = p.2 ∧ p.2 ≠ 0 := by
  intro l
  induction l with
  | nil => intro s p h; simp [addedFor] at h
  | cons sl rest ih =>
    intro s p h
    rw [addedFor] at h
    rcases List.mem_append.mp h with h' | h'
    · by_cases h0 : getEnchantmentId s sl = 0
      · rw [if_pos h0] at h'
        simp at h'
      · rw [if_neg h0] at h'
        simp at h'
        subst h'
        exact ⟨by simp, rfl, h0⟩
    · obtain ⟨ha, hb, hc⟩ := ih s p h'
      exact ⟨List.mem_cons_of_mem _ ha, hb, hc⟩

theorem applySlotEffects_spec : ∀ (l : List EnchSlot) (st : TargetState),
    (applySlotEffects st l).slots = st.slots ∧
    (applySlotEffects st l).equipped = st.equipped ∧
    (applySlotEffects st l).effects = st.effects ++ addedFor st.slots l := by
  intro l
  induction l with
  | nil => intro st; exact ⟨rfl, rfl, by simp [applySlotEffects, addedFor]⟩
  | cons sl rest ih =>
    intro st
    rw [applySlotEffects]
    obtain ⟨hs, he, hf⟩ := ih (applyEnchantment st sl true)
    refine ⟨by rw [hs, applyEnchantment_slots], by rw [he, applyEnchantment_equipped], ?_⟩
    rw [hf, applyEnchantment_slots]
    have hstep : (applyEnchantment st sl true).effects = st.effects ++
        (if getEnchantmentId st.slots sl = 0 then []
         else [(sl, getEnchantmentId st.slots sl)]) := by
      rw [applyEnchantment]
      split_ifs with h0 h1
      · simp
      · rfl
      · exact absurd rfl h1
    rw [hstep, addedFor, List.append_assoc]

theorem clear_slots_eq (st : TargetState) :
    (ClearSlamrockEnchants st).slots = clearSlots st.slots := by
  simp only [ClearSlamrockEnchants]
  split <;> simp [unapplySlots_slots]

theorem clear_equipped (st : TargetState) :
    (ClearSlamrockEnchants st).equipped = st.equipped := by
  simp only [ClearSlamrockEnchants]
  split <;> simp [unapplySlots_equipped]

theorem clear_effects_unequipped (st : TargetState) (h : st.equipped = false) :
    (ClearSlamrockEnchants st).effects = st.effects := by
  simp only [ClearSlamrockEnchants]
  simp [h]

theorem clear_effects_equipped (st : TargetState) (heq : st.equipped = true)
    (hc : propConsistent st) :
    (ClearSlamrockEnchants st).effects =
      st.effects.filter (fun e => decide (e.1 = EnchSlot.perm)) := by
  simp only [ClearSlamrockEnchants]
  simp only [heq, if_true]
  have hall := unapplySlots_effects SLAMROCK_ALL_PROP_SLOT_LIST st ?_
  · rw [hall]
    refine List.filter_congr ?_
    intro e _
    obtain ⟨s0, y0⟩ := e
    cases s0 <;> simp [SLAMROCK_ALL_PROP_SLOT_LIST]
  · intro sl hsl y hy
    have hne : sl ≠ EnchSlot.perm := by
      simp [SLAMROCK_ALL_PROP_SLOT_LIST] at hsl
      rcases hsl with rfl | rfl | rfl | rfl <;> simp
    exact hc (sl, y) hy hne

theorem apply_slots_eq (st : TargetState) (rolled : List Nat) :
    (ApplySlamrockEnchants st rolled).slots = applySlots st.slots rolled := by
  simp only [ApplySlamrockEnchants]
  split
  · exact (applySlotEffects_spec _ _).1
  · rfl

theorem apply_equipped_eq (st : TargetState) (rolled : List Nat) :
    (ApplySlamrockEnchants st rolled).equipped = st.equipped := by
  simp only [ApplySlamrockEnchants]
  split
  · exact (applySlotEffects_spec _ _).2.1
  · rfl

theorem apply_effects_eq (st : TargetState) (rolled : List Nat) :
    (ApplySlamrockEnchants st rolled).effects =
      if st.equipped = true then
        st.effects ++ addedFor (applySlots st.slots rolled)
          (EnchSlot.prop0 :: modSlotsFor rolled.length)
      else st.effects := by
  simp only [ApplySlamrockEnchants]
  by_cases h : st.equipped = true
  · simp only [h, if_true]
    exact (applySlotEffects_spec _ _).2.2
  · simp only [h, if_false]
    rfl

theorem setModifierSlots_perm (s : ItemSlots) (rolled : List Nat) :
    (setModifierSlots s rolled).perm = s.perm := by
  rcases rolled with _ | ⟨a, _ | ⟨b, _ | ⟨c, t⟩⟩⟩ <;> rfl

theorem setModifierSlots_prop0 (s : ItemSlots) (rolled : List Nat) :
    (setModifierSlots s rolled).prop0 = s.prop0 := by
  rcases rolled with _ | ⟨a, _ | ⟨b, _ | ⟨c, t⟩⟩⟩ <;> rfl

theorem applySlots_perm (s : ItemSlots) (rolled : List Nat) :
    (applySlots s rolled).perm =
      if s.perm = 0 then SLAMROCK_MARKER_ENCHANT_ID else s.perm := by
  rw [applySlots]
  split_ifs with h <;> rw [setModifierSlots_perm] <;> rfl

theorem applySlots_prop0 (s : ItemSlots) (rolled : List Nat) :
    (applySlots s rolled).prop0 =
      if s.perm = 0 then s.prop0 else SLAMROCK_MARKER_ENCHANT_ID := by
  rw [applySlots]
  split_ifs with h <;> rw [setModifierSlots_prop0] <;> rfl

theorem clearSlots_applySlots (s : ItemSlots) (rolled : List Nat) :
    clearSlots (applySlots (clearSlots s) rolled) = clearSlots s := by
  have hM : SLAMROCK_MARKER_ENCHANT_ID = 900000 := rfl
  have hperm := applySlots_perm (clearSlots s) rolled
  have hred : ∀ X : ItemSlots, clearSlots X =
      ⟨if X.perm = SLAMROCK_MARKER_ENCHANT_ID then 0 else X.perm, 0, 0, 0, 0⟩ :=
    fun X => rfl
  have hcp : (clearSlots s).perm =
      if s.perm = SLAMROCK_MARKER_ENCHANT_ID then 0 else s.perm := rfl
  rw [hred (applySlots (clearSlots s) rolled), hperm, hcp, hred s]
  by_cases h1 : s.perm = SLAMROCK_MARKER_ENCHANT_ID
  · simp [h1, hM]
  · by_cases h2 : s.perm = 0
    · simp [h1, h2, hM]
    · simp [h1, h2]

theorem mem_modSlots_ne_perm {sl : EnchSlot} {n : Nat}
    (h : sl ∈ EnchSlot.prop0 :: modSlotsFor n) : sl ≠ EnchSlot.perm := by
  rcases List.mem_cons.mp h with rfl | h'
  · simp
  · have h'' : sl ∈ SLAMROCK_MODIFIER_SLOT_LIST := List.take_subset _ _ h'
    simp [SLAMROCK_MODIFIER_SLOT_LIST] at h''
    rcases h'' with rfl | rfl | rfl <;> simp

theorem clearThenApply_slots (st : TargetState) (rolled : List Nat) :
    (clearThenApply st rolled).slots = applySlots (clearSlots st.slots) rolled := by
  rw [clearThenApply, apply_slots_eq, clear_slots_eq]

theorem clearThenApply_equipped (st : TargetState) (rolled : List Nat) :
    (clearThenApply st rolled).equipped = st.equipped := by
  rw [clearThenApply, apply_equipped_eq, clear_equipped]

/-- After clear-then-apply on an equipped, consistent state, the live effects
are exactly the surviving permanent-slot entries plus one entry per occupied
slot the apply loop visited. -/
theorem clearThenApply_effects_equipped (st : TargetState) (rolled : List Nat)
    (heq : st.equipped = true) (hc : propConsistent st) :
    (clearThenApply st rolled).effects =
      st.effects.filter (fun e => decide (e.1 = EnchSlot.perm)) ++
        addedFor (applySlots (clearSlots st.slots) rolled)
          (EnchSlot.prop0 :: modSlotsFor rolled.length) := by
  rw [clearThenApply, apply_effects_eq, clear_equipped, clear_slots_eq,
    clear_effects_equipped st heq hc]
  simp [heq]

theorem clearThenApply_effects_unequipped (st : TargetState) (rolled : List Nat)
    (heq : st.equipped = false) :
    (clearThenApply st rolled).effects = st.effects := by
  rw [clearThenApply, apply_effects_eq, clear_equipped, clear_effects_unequipped st heq]
  simp [heq]

theorem propConsistent_clearThenApply (st : TargetState) (rolled : List Nat)
    (heq : st.equipped = true) (hc : propConsistent st) :
    propConsistent (clearThenApply st rolled) := by
  intro p hp hne
  rw [clearThenApply_effects_equipped st rolled heq hc] at hp
  rw [clearThenApply_slots]
  rcases List.mem_append.mp hp with h' | h'
  · exact absurd (of_decide_eq_true (List.mem_filter.mp h').2) hne
  · have h2 := mem_addedFor _ _ _ h'
    exact ⟨h2.2.1, h2.2.2⟩

theorem clearThenApply_idem (st : TargetState) (rolled : List Nat)
    (hc : propConsistent st) :
    clearThenApply (clearThenApply st rolled) rolled = clearThenApply st rolled := by
  have hs' : (clearThenApply st rolled).slots = applySlots (clearSlots st.slots) rolled :=
    clearThenApply_slots st rolled
  have hslots2 :
      applySlots (clearSlots (clearThenApply st rolled).slots) rolled =
        (clearThenApply st rolled).slots := by
    rw [hs', clearSlots_applySlots]
  refine targetState_eq ?_ ?_ ?_
  · rw [clearThenApply_slots, hs', clearSlots_applySlots]
  · rw [clearThenApply_equipped, clearThenApply_equipped]
  · by_cases heq : st.equipped = true
    · have heq' : (clearThenApply st rolled).equipped = true := by
        rw [clearThenApply_equipped]; exact heq
      have hc' : propConsistent (clearThenApply st rolled) :=
        propConsistent_clearThenApply st rolled heq hc
      rw [clearThenApply_effects_equipped _ rolled heq' hc',
        clearThenApply_effects_equipped st rolled heq hc, hslots2]
      have h1 : (st.effects.filter (fun e => decide (e.1 = EnchSlot.perm))).filter
          (fun e => decide (e.1 = EnchSlot.perm)) =
            st.effects.filter (fun e => decide (e.1 = EnchSlot.perm)) :=
        List.filter_eq_self.mpr (fun a ha => (List.mem_filter.mp ha).2)
      have h2 : (addedFor (applySlots (clearSlots st.slots) rolled)
          (EnchSlot.prop0 :: modSlotsFor rolled.length)).filter
            (fun e => decide (e.1 = EnchSlot.perm)) = [] := by
        rw [List.filter_eq_nil_iff]
        intro p hp
        have h3 := mem_addedFor _ _ _ hp
        simp [mem_modSlots_ne_perm h3.1]
      congr 1
      · -- filtering the round-tripped effects for perm entries gives the
        -- original perm entries back
        rw [List.filter_append, h1, h2, List.append_nil]
      · rw [hs']
    · have heqf : st.equipped = false := by
        revert heq; cases st.equipped <;> simp
      have heq'' : (clearThenApply st rolled).equipped = false := by
        rw [clearThenApply_equipped]; exact heqf
      rw [clearThenApply_effects_unequipped _ rolled heq'',
        clearThenApply_effects_unequipped st rolled heqf]

def c7ForeignState : TargetState := ⟨⟨7, 0, 0, 0, 0⟩, false, []⟩

/-- Counterexample to C7 as stated: on an item whose permanent slot holds an
unrelated (non-marker) enchantment, clear-then-apply does not reproduce the
slot occupancy of a single apply from empty slots — clear deliberately keeps
the foreign permanent enchant, so the marker lands in property slot 0 instead
of the permanent slot. -/
theorem c7_clear_apply_roundtrip_cex :
    (clearThenApply c7ForeignState [11]).slots ≠
      (ApplySlamrockEnchants (emptyTargetState false) [11]).slots := by
  decide

theorem clearSlots_of_perm {s : ItemSlots}
    (h : s.perm = 0 ∨ s.perm = SLAMROCK_MARKER_ENCHANT_ID) :
    clearSlots s = ⟨0, 0, 0, 0, 0⟩ := by
  rcases h with h | h <;> simp [clearSlots, h, SLAMROCK_MARKER_ENCHANT_ID]

/-- Claim C7 (amended): clear followed immediately by apply yields slot
occupancy identical to a single apply from empty slots whenever the permanent
slot holds no unrelated enchantment (it is empty or holds the marker) — on
items whose permanent slot holds a foreign enchant, clear keeps it, see the
counterexample — and clear-then-apply is idempotent on consistent states
(both equipped and bagged): repeating it changes neither slots nor live
effects, so no effect is double-applied and no stale slot survives. -/
theorem c7_clear_apply_roundtrip_amended (st : TargetState) (rolled : List Nat)
    (hc : propConsistent st) :
    ((st.slots.perm = 0 ∨ st.slots.perm = SLAMROCK_MARKER_ENCHANT_ID) →
        (clearThenApply st rolled).slots =
          (ApplySlamrockEnchants (emptyTargetState st.equipped) rolled).slots) ∧
    clearThenApply (clearThenApply st rolled) rolled = clearThenApply st rolled := by
  constructor
  · intro hperm
    rw [clearThenApply_slots, clearSlots_of_perm hperm, apply_slots_eq]
    rfl
  · exact clearThenApply_idem st rolled hc

/-- Witness for C7 at an empty equipped item and one rolled modifier. -/
theorem c7_clear_apply_roundtrip_amended_witness :
    (clearThenApply (emptyTargetState true) [5]).slots =
      (ApplySlamrockEnchants (emptyTargetState true) [5]).slots ∧
    clearThenApply (clearThenApply (emptyTargetState true) [5]) [5] =
      clearThenApply (emptyTargetState true) [5] := by
  have h := c7_clear_apply_roundtrip_amended (emptyTargetState true) [5]
    (by intro p hp _; simp [emptyTargetState] at hp)
  exact ⟨h.1 (Or.inl rfl), h.2⟩

/-- Claim C8: after the clear-then-apply sequence run on every successful
modifier application, the marker id occupies exactly one of the permanent
slot and property slot 0 — the permanent slot exactly when it was free after
the clear, property slot 0 otherwise — and the clear never removes a
permanent-slot enchantment whose id is not the marker. -/
theorem c8_marker_slot_invariant (st : TargetState) (rolled : List Nat) :
    (((clearThenApply st rolled).slots.perm = SLAMROCK_MARKER_ENCHANT_ID ∧
        (clearThenApply st rolled).slots.prop0 ≠ SLAMROCK_MARKER_ENCHANT_ID) ∨
      ((clearThenApply st rolled).slots.perm ≠ SLAMROCK_MARKER_ENCHANT_ID ∧
        (clearThenApply st rolled).slots.prop0 = SLAMROCK_MARKER_ENCHANT_ID)) ∧
    ((clearSlots st.slots).perm = 0 →
        (clearThenApply st rolled).slots.perm = SLAMROCK_MARKER_ENCHANT_ID) ∧
    ((clearSlots st.slots).perm ≠ 0 →
        (clearThenApply st rolled).slots.prop0 = SLAMROCK_MARKER_ENCHANT_ID ∧
        (clearThenApply st rolled).slots.perm = (clearSlots st.slots).perm) ∧
    (st.slots.perm ≠ SLAMROCK_MARKER_ENCHANT_ID →
        (ClearSlamrockEnchants st).slots.perm = st.slots.perm) := by
  have hM : SLAMROCK_MARKER_ENCHANT_ID = 900000 := rfl
  have hperm : (clearThenApply st rolled).slots.perm =
      if (clearSlots st.slots).perm = 0 then SLAMROCK_MARKER_ENCHANT_ID
      else (clearSlots st.slots).perm := by
    rw [clearThenApply_slots, applySlots_perm]
  have hprop0 : (clearThenApply st rolled).slots.prop0 =
      if (clearSlots st.slots).perm = 0 then (clearSlots st.slots).prop0
      else SLAMROCK_MARKER_ENCHANT_ID := by
    rw [clearThenApply_slots, applySlots_prop0]
  have hcp : (clearSlots st.slots).perm =
      if st.slots.perm = SLAMROCK_MARKER_ENCHANT_ID then 0 else st.slots.perm := rfl
  have hcp0 : (clearSlots st.slots).prop0 = 0 := rfl
  have hne : (clearSlots st.slots).perm ≠ SLAMROCK_MARKER_ENCHANT_ID := by
    rw [hcp]
    by_cases h : st.slots.perm = SLAMROCK_MARKER_ENCHANT_ID
    · simp [h, hM]
    · simp [h]
  refine ⟨?_, ?_, ?_, ?_⟩
  · by_cases h0 : (clearSlots st.slots).perm = 0
    · left
      rw [hperm, hprop0, if_pos h0, if_pos h0, hcp0, hM]
      exact ⟨rfl, by omega⟩
    · right
      rw [hperm, hprop0, if_neg h0, if_neg h0]
      exact ⟨hne, rfl⟩
  · intro h0
    rw [hperm, if_pos h0]
  · intro h0
    rw [hperm, hprop0, if_neg h0, if_neg h0]
    exact ⟨rfl, rfl⟩
  · intro h0
    rw [clear_slots_eq, hcp, if_neg h0]

/-- Witness for C8: on an item with empty slots the marker ends up in the
permanent slot. -/
theorem c8_marker_slot_invariant_witness :
    (clearThenApply (emptyTargetState false) [5]).slots.perm =
      SLAMROCK_MARKER_ENCHANT_ID :=
  (c8_marker_slot_invariant (emptyTargetState false) [5]).2.1 (by decide)

/-! ### The swap routine and the item-use flow -/

/-- Modelled from the spec: the host Inventory Service, which is not part of
this repository's sources.  `CanEquipNewItem` / `CanStoreNewItem` are the
validate operations returning a destination on success and a failure reason
(collapsed to `none`) otherwise; `EquipNewItem` / `StoreNewItem` place a
freshly created item; `DestroyItem` removes the target from its position.
The state type `σ` is abstract; the spec's contract — a successful
validation means the replacement is placeable — is stated as the soundness
hypotheses below. -/
structure InventoryService (σ : Type) where
  canEquipNewItem : σ → Nat → Option Nat
  equipNewItem : σ → Nat → Nat → Option σ
  canStoreNewItemAnywhere : σ → Nat → Option Nat
  canStoreNewItemAtSamePos : σ → Nat → Option Nat
  storeNewItem : σ → Nat → Nat → Option σ
  destroyTargetItem : σ → σ

/-- Source: TryDowngradeItemInPlace (lines 521-573).  For an equipped target:
validate with `CanEquipNewItem` (swap allowed), destroy, equip.  For a bagged
target: validate storage anywhere, destroy, prefer the exact same position,
fall back to the pre-validated location.  Returns the success flag and the
resulting inventory state. -/
def TryDowngradeItemInPlace {σ : Type} (svc : InventoryService σ) (inv : σ)
    (isEquipPos isInventoryPos : Bool) (newEntry : Nat) : Bool × σ :=
  if newEntry = 0 then (false, inv)
  else if isEquipPos = true then
    match svc.canEquipNewItem inv newEntry with
    | none => (false, inv)
    | some dest =>
      match svc.equipNewItem (svc.destroyTargetItem inv) dest newEntry with
      | none => (false, svc.destroyTargetItem inv)
      | some inv2 => (true, inv2)
  else if isInventoryPos = true then
    match svc.canStoreNewItemAnywhere inv newEntry with
    | none => (false, inv)
    | some destAny =>
      match svc.canStoreNewItemAtSamePos (svc.destroyTargetItem inv) newEntry with
      | some destSame =>
        (match svc.storeNewItem (svc.destroyTargetItem inv) destSame newEntry with
         | none => (false, svc.destroyTargetItem inv)
         | some inv2 => (true, inv2))
      | none =>
        (match svc.storeNewItem (svc.destroyTargetItem inv) destAny newEntry with
         | none => (false, svc.destroyTargetItem inv)
         | some inv2 => (true, inv2))
  else (false, inv)

/-- Modelled from the spec: an equip validation success means the replacement
can be equipped once the original is destroyed. -/
def EquipValidationSound {σ : Type} (svc : InventoryService σ) : Prop :=
  ∀ inv e d, svc.canEquipNewItem inv e = some d →
    (svc.equipNewItem (svc.destroyTargetItem inv) d e).isSome

/-- Modelled from the spec: a same-position storage validation success means
the store at that destination succeeds. -/
def StoreSamePosValidationSound {σ : Type} (svc : InventoryService σ) : Prop :=
  ∀ inv e d, svc.canStoreNewItemAtSamePos inv e = some d →
    (svc.storeNewItem inv d e).isSome

/-- Modelled from the spec: an anywhere-storage validation success means the
store at the validated destination still succeeds after the original is
destroyed (destroying only frees space). -/
def StoreAnywhereValidationSound {σ : Type} (svc : InventoryService σ) : Prop :=
  ∀ inv e d, svc.canStoreNewItemAnywhere inv e = some d →
    (svc.storeNewItem (svc.destroyTargetItem inv) d e).isSome

theorem tryDowngrade_fail_eq {σ : Type} (svc : InventoryService σ)
    (h1 : EquipValidationSound svc) (h2 : StoreSamePosValidationSound svc)
    (h3 : StoreAnywhereValidationSound svc)
    (inv : σ) (eqp invp : Bool) (e : Nat)
    (hf : (TryDowngradeItemInPlace svc inv eqp invp e).1 = false) :
    (TryDowngradeItemInPlace svc inv eqp invp e).2 = inv := by
  rw [TryDowngradeItemInPlace] at hf ⊢
  by_cases h0 : e = 0
  · simp [h0]
  · rw [if_neg h0] at hf ⊢
    by_cases hq : eqp = true
    · rw [if_pos hq] at hf ⊢
      cases hce : svc.canEquipNewItem inv e with
      | none => simp [hce]
      | some dest =>
        cases heq : svc.equipNewItem (svc.destroyTargetItem inv) dest e with
        | none =>
          exfalso
          have hs := h1 inv e dest hce
          rw [heq] at hs
          simp at hs
        | some inv2 => simp [hce, heq] at hf
    · rw [if_neg hq] at hf ⊢
      by_cases hv : invp = true
      · rw [if_pos hv] at hf ⊢
        cases hca : svc.canStoreNewItemAnywhere inv e with
        | none => simp [hca]
        | some destAny =>
          cases hcs : svc.canStoreNewItemAtSamePos (svc.destroyTargetItem inv) e with
          | some destSame =>
            cases hst : svc.storeNewItem (svc.destroyTargetItem inv) destSame e with
            | none =>
              exfalso
              have hs := h2 (svc.destroyTargetItem inv) e destSame hcs
              rw [hst] at hs
              simp at hs
            | some inv2 => simp [hca, hcs, hst] at hf
          | none =>
            cases hst : svc.storeNewItem (svc.destroyTargetItem inv) destAny e with
            | none =>
              exfalso
              have hs := h3 inv e destAny hca
              rw [hst] at hs
              simp at hs
            | some inv2 => simp [hca, hcs, hst] at hf
      · simp [hv]

/-- Claim C2: under the spec's contract for the inventory service, the swap
routine is atomic — whenever it reports failure the inventory is exactly the
original state (the original item untouched), and whenever it reports success
the corresponding validation (equip validation for an equipped target,
anywhere-storage validation for a bagged target) had succeeded before the
original was destroyed. -/
theorem c2_swap_atomicity {σ : Type} (svc : InventoryService σ)
    (h1 : EquipValidationSound svc) (h2 : StoreSamePosValidationSound svc)
    (h3 : StoreAnywhereValidationSound svc)
    (inv : σ) (isEquipPos isInventoryPos : Bool) (newEntry : Nat) :
    ((TryDowngradeItemInPlace svc inv isEquipPos isInventoryPos newEntry).1 = false →
        (TryDowngradeItemInPlace svc inv isEquipPos isInventoryPos newEntry).2 = inv) ∧
    ((TryDowngradeItemInPlace svc inv isEquipPos isInventoryPos newEntry).1 = true →
        newEntry ≠ 0 ∧
        ((isEquipPos = true ∧ (svc.canEquipNewItem inv newEntry).isSome) ∨
          (isEquipPos = false ∧ isInventoryPos = true ∧
            (svc.canStoreNewItemAnywhere inv newEntry).isSome))) := by
  constructor
  · exact tryDowngrade_fail_eq svc h1 h2 h3 inv isEquipPos isInventoryPos newEntry
  · intro ht
    rw [TryDowngradeItemInPlace] at ht
    by_cases h0 : newEntry = 0
    · simp [h0] at ht
    · rw [if_neg h0] at ht
      refine ⟨h0, ?_⟩
      by_cases hq : isEquipPos = true
      · rw [if_pos hq] at ht
        cases hce : svc.canEquipNewItem inv newEntry with
        | none => simp [hce] at ht
        | some dest =>
          cases heq : svc.equipNewItem (svc.destroyTargetItem inv) dest newEntry with
          | none => simp [hce, heq] at ht
          | some inv2 => exact Or.inl ⟨hq, by simp [hce]⟩
      · rw [if_neg hq] at ht
        by_cases hv : isInventoryPos = true
        · rw [if_pos hv] at ht
          cases hca : svc.canStoreNewItemAnywhere inv newEntry with
          | none => simp [hca] at ht
          | some destAny =>
            refine Or.inr ⟨by revert hq; cases isEquipPos <;> simp, hv, by simp [hca]⟩
        · simp [hv] at ht

def c2Service : InventoryService Nat where
  canEquipNewItem := fun _ _ => none
  equipNewItem := fun inv _ _ => some (inv + 1)
  canStoreNewItemAnywhere := fun _ _ => none
  canStoreNewItemAtSamePos := fun _ _ => none
  storeNewItem := fun inv _ _ => some (inv + 1)
  destroyTargetItem := fun inv => inv

theorem c2Service_sound_equip : EquipValidationSound c2Service := by
  intro inv e d h
  simp [c2Service] at h

theorem c2Service_sound_same : StoreSamePosValidationSound c2Service := by
  intro inv e d h
  simp [c2Service] at h

theorem c2Service_sound_any : StoreAnywhereValidationSound c2Service := by
  intro inv e d h
  simp [c2Service] at h

/-- Witness for C2 at a concrete service and inventory. -/
theorem c2_swap_atomicity_witness :
    (TryDowngradeItemInPlace c2Service 7 true false 5).2 = 7 :=
  (c2_swap_atomicity c2Service c2Service_sound_equip c2Service_sound_same
    c2Service_sound_any 7 true false 5).1 (by decide)

/-! ### Claim C9: the item-use flow -/

inductive UseOutcome
  | rejectedTarget
  | upgraded
  | downgraded
  | emptyPool
  | noEligible
  | emptyRoll
  | empowered
deriving DecidableEq

/-- The facts about the targeted item checked by the entry gates of
`ItemUse_item_slamrock`. -/
structure TargetInfo where
  present : Bool
  owned : Bool
  randomPropertyId : Int
  proto : ItemPrototype
  isEquipPos : Bool
  isInventoryPos : Bool
deriving DecidableEq

/-- The mutable state the flow can touch: the target item's enchantment
state, the player's inventory, and the number of Slamrocks held. -/
structure UseState (σ : Type) where
  target : TargetState
  inv : σ
  slamrockCount : Nat

/-- The random draws consumed by one item-use event (each `urand` call of the
source, in order). -/
structure UseDraws where
  upgradeGate : Nat
  upgradePick : Nat
  downgradeGate : Nat
  downgradePick : Nat
  modifierCountDraw : Nat
  modifierDraws : Nat → Nat × Nat

/-- Source: IsReasonableGearTarget plus the missing-target check. -/
def targetAccepted (info : TargetInfo) : Bool :=
  info.present && equippableGear info.proto

def IsWeaponTargetInfo (info : TargetInfo) : Bool :=
  decide (info.proto.Class = ITEM_CLASS_WEAPON)

/-- The upgrade-stage candidate: nonzero only when the 2% gate fires and a
candidate exists. -/
def upgradeEntryOf (catalog : List ItemPrototype) (info : TargetInfo) (d : UseDraws) : Nat :=
  if d.upgradeGate ≤ SLAMROCK_UPGRADE_CHANCE_PCT then
    PickUpgradeEntrySameClass catalog info.proto SLAMROCK_UPGRADE_MAX_ILVL_DELTA d.upgradePick
  else 0

/-- The downgrade-stage candidate: nonzero only when the 25% gate fires and a
candidate exists. -/
def downgradeEntryOf (catalog : List ItemPrototype) (info : TargetInfo) (d : UseDraws) : Nat :=
  if d.downgradeGate ≤ SLAMROCK_DOWNGRADE_CHANCE_PCT then
    PickDowngradeEntry catalog info.proto d.downgradePick
  else 0

/-- One swap attempt of the flow: call `TryDowngradeItemInPlace` when a
candidate was picked, otherwise fall through unchanged. -/
def swapStageResult {σ : Type} (svc : InventoryService σ) (info : TargetInfo)
    (entry : Nat) (inv : σ) : Bool × σ :=
  if entry ≠ 0 then TryDowngradeItemInPlace svc inv info.isEquipPos info.isInventoryPos entry
  else (false, inv)

/-- The whitelist-roll portion of `ItemUse_item_slamrock` (lines 796-927):
empty-pool check, eligible-groups precheck capping `modifierCount` to zero,
the roll loop, and on success clear-then-apply plus consuming one Slamrock. -/
def rollStage {σ : Type} (pool : List SlamrockWhitelistRow) (itemLevel : Nat)
    (d : UseDraws) (st : UseState σ) : UseOutcome × UseState σ :=
  if pool.isEmpty then (.emptyPool, st)
  else if (if eligibleGroupsExist pool itemLevel then d.modifierCountDraw else 0) = 0 then
    (.noEligible, st)
  else if (rollModifiers pool itemLevel
      (if eligibleGroupsExist pool itemLevel then d.modifierCountDraw else 0)
      d.modifierDraws).isEmpty then
    (.emptyRoll, st)
  else
    (.empowered,
      ⟨clearThenApply st.target (rollModifiers pool itemLevel
          (if eligibleGroupsExist pool itemLevel then d.modifierCountDraw else 0)
          d.modifierDraws),
        st.inv, st.slamrockCount - 1⟩)

/-- Source: ItemUse_item_slamrock (lines 662-928).  Target gates, the 2%
upgrade stage, the 25% downgrade stage (each committing and consuming a
Slamrock on success, falling through on failure), then the whitelist roll. -/
def ItemUse_item_slamrock {σ : Type} (svc : InventoryService σ)
    (catalog : List ItemPrototype) (weaponPool armorPool : List SlamrockWhitelistRow)
    (info : TargetInfo) (d : UseDraws) (st : UseState σ) : UseOutcome × UseState σ :=
  if targetAccepted info = false then (.rejectedTarget, st)
  else if info.owned = false then (.rejectedTarget, st)
  else if info.randomPropertyId ≠ 0 then (.rejectedTarget, st)
  else if (swapStageResult svc info (upgradeEntryOf catalog info d) st.inv).1 = true then
    (.upgraded,
      ⟨st.target, (swapStageResult svc info (upgradeEntryOf catalog info d) st.inv).2,
        st.slamrockCount - 1⟩)
  else if (swapStageResult svc info (downgradeEntryOf catalog info d)
      (swapStageResult svc info (upgradeEntryOf catalog info d) st.inv).2).1 = true then
    (.downgraded,
      ⟨st.target,
        (swapStageResult svc info (downgradeEntryOf catalog info d)
          (swapStageResult svc info (upgradeEntryOf catalog info d) st.inv).2).2,
        st.slamrockCount - 1⟩)
  else
    rollStage (if IsWeaponTargetInfo info then weaponPool else armorPool)
      info.proto.ItemLevel d
      ⟨st.target,
        (swapStageResult svc info (downgradeEntryOf catalog info d)
          (swapStageResult svc info (upgradeEntryOf catalog info d) st.inv).2).2,
        st.slamrockCount⟩

theorem swapStageResult_fail_eq {σ : Type} (svc : InventoryService σ)
    (h1 : EquipValidationSound svc) (h2 : StoreSamePosValidationSound svc)
    (h3 : StoreAnywhereValidationSound svc) (info : TargetInfo) (entry : Nat) (inv : σ)
    (hf : (swapStageResult svc info entry inv).1 = false) :
    (swapStageResult svc info entry inv).2 = inv := by
  rw [swapStageResult] at hf ⊢
  split_ifs with h
  · rw [if_pos h] at hf
    exact tryDowngrade_fail_eq svc h1 h2 h3 inv info.isEquipPos info.isInventoryPos entry hf
  · rfl

theorem rollStage_fail_eq {σ : Type} (pool : List SlamrockWhitelistRow) (itemLevel : Nat)
    (d : UseDraws) (st : UseState σ)
    (h : (rollStage pool itemLevel d st).1 ≠ UseOutcome.empowered) :
    (rollStage pool itemLevel d st).2 = st := by
  rw [rollStage] at h ⊢
  split_ifs at h ⊢ <;> first | rfl | (exact absurd rfl h)

/-- Claim C9: on every failure path of the item-use flow — target rejected
(missing, wrong category, not owned, or nonzero random property id), empty
whitelist pool, no tier-eligible group, or zero enchantments rolled — the
flow returns with the entire modelled state unchanged: the target item's
enchantment slots and live effects untouched, the inventory untouched, and
the Slamrock not consumed. -/
theorem c9_failure_paths_preserve_state {σ : Type} (svc : InventoryService σ)
    (h1 : EquipValidationSound svc) (h2 : StoreSamePosValidationSound svc)
    (h3 : StoreAnywhereValidationSound svc)
    (catalog : List ItemPrototype) (weaponPool armorPool : List SlamrockWhitelistRow)
    (info : TargetInfo) (d : UseDraws) (st : UseState σ)
    (hout :
      (ItemUse_item_slamrock svc catalog weaponPool armorPool info d st).1 =
          UseOutcome.rejectedTarget ∨
      (ItemUse_item_slamrock svc catalog weaponPool armorPool info d st).1 =
          UseOutcome.emptyPool ∨
      (ItemUse_item_slamrock svc catalog weaponPool armorPool info d st).1 =
          UseOutcome.noEligible ∨
      (ItemUse_item_slamrock svc catalog weaponPool armorPool info d st).1 =
          UseOutcome.emptyRoll) :
    (ItemUse_item_slamrock svc catalog weaponPool armorPool info d st).2 = st := by
  rw [ItemUse_item_slamrock] at hout ⊢
  by_cases hr1 : targetAccepted info = false
  · simp [hr1]
  · rw [if_neg hr1] at hout ⊢
    by_cases hr2 : info.owned = false
    · simp [hr2]
    · rw [if_neg hr2] at hout ⊢
      by_cases hr3 : info.randomPropertyId ≠ 0
      · simp [hr3]
      · rw [if_neg hr3] at hout ⊢
        by_cases hb1 : (swapStageResult svc info (upgradeEntryOf catalog info d) st.inv).1 = true
        · rw [if_pos hb1] at hout
          rcases hout with h | h | h | h <;> simp at h
        · rw [if_neg hb1] at hout ⊢
          have hi1 : (swapStageResult svc info (upgradeEntryOf catalog info d) st.inv).2 =
              st.inv :=
            swapStageResult_fail_eq svc h1 h2 h3 info (upgradeEntryOf catalog info d) st.inv
              (by revert hb1
                  cases (swapStageResult svc info (upgradeEntryOf catalog info d) st.inv).1 <;>
                    simp)
          by_cases hb2 : (swapStageResult svc info (downgradeEntryOf catalog info d)
              (swapStageResult svc info (upgradeEntryOf catalog info d) st.inv).2).1 = true
          · rw [if_pos hb2] at hout
            rcases hout with h | h | h | h <;> simp at h
          · rw [if_neg hb2] at hout ⊢
            have hi2 : (swapStageResult svc info (downgradeEntryOf catalog info d)
                (swapStageResult svc info (upgradeEntryOf catalog info d) st.inv).2).2 =
                  (swapStageResult svc info (upgradeEntryOf catalog info d) st.inv).2 :=
              swapStageResult_fail_eq svc h1 h2 h3 info (downgradeEntryOf catalog info d) _
                (by revert hb2
                    cases (swapStageResult svc info (downgradeEntryOf catalog info d)
                      (swapStageResult svc info (upgradeEntryOf catalog info d) st.inv).2).1 <;>
                      simp)
            have hne : (rollStage
                (if IsWeaponTargetInfo info then weaponPool else armorPool)
                info.proto.ItemLevel d
                ⟨st.target,
                  (swapStageResult svc info (downgradeEntryOf catalog info d)
                    (swapStageResult svc info (upgradeEntryOf catalog info d) st.inv).2).2,
                  st.slamrockCount⟩).1 ≠ UseOutcome.empowered := by
              intro hemp
              rw [hemp] at hout
              rcases hout with h | h | h | h <;> simp at h
            have h5 := rollStage_fail_eq
              (if IsWeaponTargetInfo info then weaponPool else armorPool)
              info.proto.ItemLevel d
              ⟨st.target,
                (swapStageResult svc info (downgradeEntryOf catalog info d)
                  (swapStageResult svc info (upgradeEntryOf catalog info d) st.inv).2).2,
                st.slamrockCount⟩ hne
            rw [h5, hi2, hi1]

def c9Info : TargetInfo := ⟨false, true, 0, ⟨1, 2, 3, 4, 5⟩, false, true⟩

def c9Draws : UseDraws := ⟨50, 0, 50, 0, 1, fun _ => (1, 1)⟩

def c9State : UseState Nat := ⟨emptyTargetState false, 3, 1⟩

/-- Witness for C9: a missing target is rejected and the state is returned
unchanged. -/
theorem c9_failure_paths_preserve_state_witness :
    (ItemUse_item_slamrock c2Service [] [] [] c9Info c9Draws c9State).2 = c9State :=
  c9_failure_paths_preserve_state c2Service c2Service_sound_equip c2Service_sound_same
    c2Service_sound_any [] [] [] c9Info c9Draws c9State (Or.inl (by decide))

end Slamrock
